import Mathlib

/-!
Verification of the price-list editing backend against its specification.

The development shallowly embeds the Python sources:
  * `python/extract_prices.py` (price pattern, parsing, description search),
  * `python/price_list/update_pdf.py` (validation, per-page processing, formatting),
  * `python/price_list/backend.py` (rate limiter, year increment, log endpoint,
    document state).
Machine floats are modelled as exact rationals (the program only ever
manipulates decimal literals in the fragments verified here); fallible
operations return `Option` or `Except`; the file system and the PDF library
are abstract environments whose calls are recorded as effects.
-/

/-! ## Price pattern from extract_prices.py

The source pattern is
`\$(?!-)(?!0(?:[.,]0*)?(?:/hr)?$)[\d,]+(?:\.\d{2})?(?:/hr)?`.
The embedding below follows the regex piece by piece; since the character
classes of the pieces are disjoint, the backtracking semantics of the regex
reduce to the deterministic decompositions used here.
-/

/-- Character class `[\d,]`. -/
def isDigitComma (c : Char) : Bool := c.isDigit || c == ','

/-- Tail matcher for `(?:/hr)?$`: the remainder is empty or exactly `/hr`. -/
def hrTail (l : List Char) : Bool := l == [] || l == ['/', 'h', 'r']

/-- The negative-lookahead body `0(?:[.,]0*)?(?:/hr)?$`, applied to the text
after the `$` sign.  A greedy `dropWhile` is exact for `0*` because `/hr`
does not start with `0`. -/
def zeroLookahead (l : List Char) : Bool :=
  match l with
  | c :: rest =>
    c == '0' &&
      (hrTail rest ||
        (match rest with
         | c2 :: rest2 =>
           (c2 == '.' || c2 == ',') && hrTail (rest2.dropWhile (fun x => x == '0'))
         | [] => false))
  | [] => false

/-- The last three characters of a decimal tail `\.\d{2}`. -/
def dotTail (l : List Char) : Bool :=
  match l with
  | [a, b, c] => a == '.' && b.isDigit && c.isDigit
  | _ => false

/-- Matcher for `[\d,]+(?:\.\d{2})?`: either the whole text is a nonempty
run of digits and commas, or it is such a run followed by `.` and exactly
two digits. -/
def numBodyMatch (l : List Char) : Bool :=
  (!l.isEmpty && l.all isDigitComma) ||
  (!(l.take (l.length - 3)).isEmpty &&
    (l.take (l.length - 3)).all isDigitComma &&
    dotTail (l.drop (l.length - 3)))

/-- Matcher for `[\d,]+(?:\.\d{2})?(?:/hr)?`: the optional `/hr` suffix is
split off by looking at the reversed list (its characters cannot occur in
the numeric body at the split point, so this is exact). -/
def priceBody (l : List Char) : Bool :=
  numBodyMatch l ||
  (match l.reverse with
   | a :: b :: c :: rest =>
     a == 'r' && b == 'h' && c == '/' && numBodyMatch rest.reverse
   | _ => false)

/-- `PRICE_PATTERN.fullmatch` from extract_prices.py. -/
def priceFullMatch (s : String) : Bool :=
  match s.toList with
  | c :: rest =>
    c == '$' &&
      (match rest with | c2 :: _ => !(c2 == '-') | [] => true) &&
      !(zeroLookahead rest) &&
      priceBody rest
  | [] => false

/-- `PRICE_PATTERN.match` (match anchored at the start, any prefix): after
the `$` and the two lookaheads, a match exists exactly when the next
character lies in `[\d,]` (both optional groups may be empty). -/
def pricePrefMatch (s : String) : Bool :=
  match s.toList with
  | c :: rest =>
    c == '$' &&
      !(zeroLookahead rest) &&
      (match rest with
       | c2 :: _ => !(c2 == '-') && isDigitComma c2
       | [] => false)
  | [] => false

/-! ## Numeric parsing from extract_prices.py -/

/-- Numeric value of a digit string read most-significant first. -/
def digitsVal (l : List Char) : ℕ :=
  l.foldl (fun a c => 10 * a + (c.toNat - 48)) 0

/-- Python `float()` restricted to the fixed-point grammar
`[-]digits[.digits]` (with at least one digit); every string this program
hands to `float()` lies in that grammar, so exponent, `inf`/`nan` and
underscore forms are out of scope. -/
def pyFloat (l : List Char) : Option ℚ :=
  let stripped : Bool × List Char :=
    match l with
    | c :: t => if c == '-' then (true, t) else (false, l)
    | [] => (false, l)
  let neg := stripped.1
  let body := stripped.2
  let ip := body.takeWhile Char.isDigit
  let rest := body.dropWhile Char.isDigit
  match rest with
  | [] =>
    if ip.isEmpty then none
    else some (if neg then -(digitsVal ip : ℚ) else (digitsVal ip : ℚ))
  | c :: fp =>
    if c == '.' && fp.all Char.isDigit && (!ip.isEmpty || !fp.isEmpty) then
      some (let v : ℚ := (digitsVal ip : ℚ) + (digitsVal fp : ℚ) / ((10 ^ fp.length : ℕ) : ℚ);
            if neg then -v else v)
    else none

/-- One left-to-right pass of Python `text.replace("/hr", "")`. -/
def removeHr : List Char → List Char
  | [] => []
  | [c] => [c]
  | [c, c2] => [c, c2]
  | c :: c2 :: c3 :: rest2 =>
    if c == '/' && c2 == 'h' && c3 == 'r' then removeHr rest2
    else c :: removeHr (c2 :: c3 :: rest2)

/-- Python `text.endswith("/hr")`. -/
def endsHr (l : List Char) : Bool :=
  match l.reverse with
  | a :: b :: c :: _ => a == 'r' && b == 'h' && c == '/'
  | _ => false

/-- `MAX_PRICE_VALUE` from extract_prices.py. -/
def MAX_PRICE_VALUE : ℚ := 10000000

/-- `parse_price_value` from extract_prices.py: record the `/hr` suffix,
strip `$`, `/hr` and `,`, parse as a float, and reject negative values and
values above the maximum.  `none` models the raised `ValueError`. -/
def parse_price_value (text : String) : Option (ℚ × Bool) :=
  let l := text.toList
  let hasHr := endsHr l
  let clean := (removeHr (l.filter (fun c => !(c == '$')))).filter (fun c => !(c == ','))
  match pyFloat clean with
  | none => none
  | some v =>
    if v < 0 then none
    else if MAX_PRICE_VALUE < v then none
    else some (v, hasHr)

/-- The cleaned character list whose `float()` value is the value denoted by
a price string (the parse of `parse_price_value` before its range checks). -/
def cleanedChars (text : String) : List Char :=
  (removeHr (text.toList.filter (fun c => !(c == '$')))).filter (fun c => !(c == ','))

/-! ## Description search from extract_prices.py -/

/-- An axis-aligned box `(x0, y0, x1, y1)` in page coordinates. -/
structure Rect where
  x0 : ℚ
  y0 : ℚ
  x1 : ℚ
  y1 : ℚ
deriving DecidableEq

/-- A text span as consumed by `find_description_for_price`. -/
structure Span where
  text : String
  bbox : Rect
deriving DecidableEq

/-- Python `str.strip()` on the whitespace actually occurring in spans. -/
def pyStrip (s : String) : String :=
  String.mk (((s.toList.dropWhile Char.isWhitespace).reverse.dropWhile
    Char.isWhitespace).reverse)

/-- Same-line test: vertical centers within the tolerance and the span
strictly left of the price. -/
def spanSameLine (pb : Rect) (tol : ℚ) (r : Rect) : Bool :=
  decide (|(r.y0 + r.y1) / 2 - (pb.y0 + pb.y1) / 2| ≤ tol) && decide (r.x1 < pb.x0)

/-- Above test (the `elif` branch): span ends above the price top and the
horizontal extents overlap. -/
def spanAbove (pb : Rect) (r : Rect) : Bool :=
  decide (r.y1 < pb.y0) && decide (r.x0 < pb.x1) && decide (pb.x0 < r.x1)

/-- First element with minimal key, as produced by the stable
`candidates.sort(key=distance)` followed by taking element 0. -/
def pickClosest : List (ℚ × String) → Option (ℚ × String)
  | [] => none
  | x :: xs =>
    match pickClosest xs with
    | none => some x
    | some y => if y.1 < x.1 then some y else some x

/-- Spans skipped by the candidate loop: empty after stripping, or matching
the price pattern (prefix match in the source). -/
def spanSkipped (s : Span) : Bool :=
  pyStrip s.text == "" || pricePrefMatch (pyStrip s.text)

/-- Same-line candidates in span order, as `(horizontal gap, text)`. -/
def sameLineCands (pb : Rect) (tol : ℚ) (spans : List Span) : List (ℚ × String) :=
  (spans.filter (fun s => !spanSkipped s && spanSameLine pb tol s.bbox)).map
    (fun s => (pb.x0 - s.bbox.x1, pyStrip s.text))

/-- Above candidates in span order, as `(vertical gap, text)`; a span is
only tested here when the same-line test failed (the `elif`). -/
def aboveCands (pb : Rect) (tol : ℚ) (spans : List Span) : List (ℚ × String) :=
  (spans.filter (fun s =>
    !spanSkipped s && !spanSameLine pb tol s.bbox && spanAbove pb s.bbox)).map
    (fun s => (pb.y0 - s.bbox.y1, pyStrip s.text))

/-- `find_description_for_price` from extract_prices.py. -/
def find_description_for_price (pb : Rect) (spans : List Span) (tol : ℚ) : String :=
  match pickClosest (sameLineCands pb tol spans) with
  | some c => c.2
  | none =>
    match pickClosest (aboveCands pb tol spans) with
    | some c => c.2
    | none => "Unknown item"

/-! ## Output-name derivation from backend.py (`/api/export`)

The source substitutes, with `count=1`, the pattern
`(?:^|(?<=[_\s.\-]))(20[2-9]\d)(?=[_\s.\-]|$)` by the incremented year and
falls back to appending `_updated` when the name is unchanged.
-/

/-- The filename separators `[_\s.\-]` of the year pattern lookarounds. -/
def isSep (c : Char) : Bool := c == '_' || c.isWhitespace || c == '.' || c == '-'

/-- Try to read a year token `20[2-9]\d` with its right boundary at the
head of the list; returns the year and the remaining characters. -/
def year4 : List Char → Option (ℕ × List Char)
  | c1 :: c2 :: c3 :: c4 :: rest =>
    if c1 == '2' && c2 == '0' && ('2' ≤ c3 && c3 ≤ '9') && c4.isDigit
        && (match rest with | [] => true | r :: _ => isSep r) then
      some (2000 + (c3.toNat - 48) * 10 + (c4.toNat - 48), rest)
    else none
  | _ => none

/-- Left-to-right scan for the first standalone year; the flag records
whether the previous character is a boundary (start of string counts).
On a match the replacement is spliced in and scanning stops (`count=1`). -/
def incFirstYear : Bool → List Char → List Char
  | _, [] => []
  | atBoundary, c :: rest =>
    if atBoundary then
      match year4 (c :: rest) with
      | some (y, after) =>
        if 2020 ≤ y && y ≤ 2099 then (Nat.repr (y + 1)).toList ++ after
        else c :: rest
      | none => c :: incFirstYear (isSep c) rest
    else c :: incFirstYear (isSep c) rest

/-- Output-name derivation for an omitted `outputPath`: increment the first
standalone year in the stem, else append `_updated`. -/
def derive_output_name (inputName : String) : String :=
  let out := String.mk (incFirstYear true inputName.toList)
  if out == inputName then inputName ++ "_updated" else out

/-! ## RateLimiter from backend.py -/

/-- The rate limiter state: per-key recorded admission timestamps
(`defaultdict(list)` starts every key at `[]`). -/
structure RateLimiter where
  maxRequests : ℕ
  windowSeconds : ℚ
  requests : String → List ℚ

/-- A fresh limiter with the given parameters. -/
def RateLimiter.init (mx : ℕ) (w : ℚ) : RateLimiter :=
  { maxRequests := mx, windowSeconds := w, requests := fun _ => [] }

/-- `RateLimiter.is_allowed`: prune timestamps at or before `now - window`,
admit (appending `now`) when the remaining count is below the maximum,
otherwise reject leaving only the pruned list. -/
def is_allowed (rl : RateLimiter) (endpoint : String) (now : ℚ) : Bool × RateLimiter :=
  let cutoff := now - rl.windowSeconds
  let kept := (rl.requests endpoint).filter (fun t => decide (cutoff < t))
  if kept.length < rl.maxRequests then
    (true, { rl with requests := fun k => if k == endpoint then kept ++ [now] else rl.requests k })
  else
    (false, { rl with requests := fun k => if k == endpoint then kept else rl.requests k })

/-- A sequence of calls on one key at the given times, returning the
admission verdicts in order and the final limiter state. -/
def runCalls : RateLimiter → String → List ℚ → List Bool × RateLimiter
  | rl, _, [] => ([], rl)
  | rl, key, t :: ts =>
    let r := is_allowed rl key t
    let rest := runCalls r.2 key ts
    (r.1 :: rest.1, rest.2)

/-! ## Log endpoint from backend.py (`/api/log`) -/

/-- The sanitizer of the log endpoint: keep characters that are `>= ' '`
(by code point) or tab. -/
def sanitize_log_message (m : String) : String :=
  String.mk (m.toList.filter (fun c => ' ' ≤ c || c == '\t'))

/-- Truncation threshold of the log endpoint. -/
def LOG_MAX_LENGTH : ℕ := 500

/-- The log endpoint on an already-decoded string message: returns the line
written to the process log and the `success` flag of the JSON response. -/
def log_endpoint (m : String) : String × Bool :=
  let s := sanitize_log_message m
  let n := s.length
  if LOG_MAX_LENGTH < n then
    ("[UI] " ++ String.mk (s.toList.take LOG_MAX_LENGTH) ++ "... [TRUNCATED: "
      ++ Nat.repr (n - LOG_MAX_LENGTH) ++ " chars hidden]", true)
  else
    ("[UI] " ++ s, true)

/-- Control characters in the sense of the specification (Unicode category
Cc: the C0 range below U+0020, DEL, and the C1 range U+0080..U+009F). -/
def isControlChar (c : Char) : Bool :=
  c.val < 0x20 || (0x7f ≤ c.val && c.val ≤ 0x9f)

/-- The sanitizer the specification describes: strip all control
characters, keeping tabs. -/
def specStripControls (m : String) : String :=
  String.mk (m.toList.filter (fun c => !(isControlChar c) || c == '\t'))

/-! ## Document state from backend.py -/

/-- One extracted price record (`PriceItem` from extract_prices.py). -/
structure PriceItem where
  id : ℕ
  text : String
  numeric_value : ℚ
  has_hr_suffix : Bool
  description : String
  bbox : Rect
  page_num : ℕ
  font_size : ℚ
  color : ℚ × ℚ × ℚ
deriving DecidableEq

/-- The two globals `current_pdf_path` and `prices_cache`; both start as
`None`. -/
structure DocState where
  current_pdf_path : Option String
  prices_cache : Option (List PriceItem)
deriving DecidableEq

/-- `load_pdf`: run the extractor; on failure the exception propagates and
the state is untouched, on success both components are published together
(the mutual exclusion enforced by `load_lock`/`state_lock` appears here as
the atomicity of the state update). -/
def load_pdf (extract : String → Except String (List PriceItem)) (st : DocState)
    (path : String) : Except String (List PriceItem) × DocState :=
  match extract path with
  | .error e => (.error e, st)
  | .ok prices => (.ok prices, { current_pdf_path := some path, prices_cache := some prices })

/-- `get_prices_with_path`: read both components under the state lock,
failing when nothing has been loaded. -/
def get_prices_with_path (st : DocState) : Except String (List PriceItem × String) :=
  match st.prices_cache, st.current_pdf_path with
  | some prices, some p => .ok (prices, p)
  | _, _ => .error "No PDF loaded. Call /api/load first."

/-! ## Python values for update_pdf.py requests

Update requests arrive as JSON dicts.  `PyScalar`/`PyVal` model the values
that can populate their fields: Python ints and floats are separated
because `page_num` requires `isinstance(int)` while the other numeric
checks accept `(int, float)`; floats carry `nan`/`inf` so the finiteness
checks are represented.  Nested containers never occur in the checked
positions and are not modelled.
-/

/-- A Python float: finite (exact decimal fragment, as a rational), or one
of the non-finite values. -/
inductive PyFloat
  | fin (q : ℚ)
  | nan
  | pinf
  | ninf
deriving DecidableEq

/-- A scalar JSON/Python value. -/
inductive PyScalar
  | intv (n : ℤ)
  | floatv (f : PyFloat)
  | strv (s : String)
  | nonev
deriving DecidableEq

/-- A field value: a scalar or a flat list of scalars. -/
inductive PyVal
  | scalar (v : PyScalar)
  | listv (l : List PyScalar)
deriving DecidableEq

/-- `isinstance(x, (int, float))`. -/
def PyScalar.isNumber : PyScalar → Bool
  | .intv _ => true
  | .floatv _ => true
  | _ => false

/-- `math.isnan(x)`. -/
def PyScalar.isNaN : PyScalar → Bool
  | .floatv .nan => true
  | _ => false

/-- `math.isinf(x)`. -/
def PyScalar.isInf : PyScalar → Bool
  | .floatv .pinf => true
  | .floatv .ninf => true
  | _ => false

/-- The finite numeric value of a scalar, when it has one. -/
def PyScalar.numVal : PyScalar → Option ℚ
  | .intv n => some (n : ℚ)
  | .floatv (.fin q) => some q
  | _ => none

/-- Python `type(x).__name__` for the modelled values. -/
def PyVal.typeName : PyVal → String
  | .scalar (.intv _) => "int"
  | .scalar (.floatv _) => "float"
  | .scalar (.strv _) => "str"
  | .scalar .nonev => "NoneType"
  | .listv _ => "list"

/-- Rendering of an id value inside error messages. -/
def PyVal.render : PyVal → String
  | .scalar (.intv n) => Int.repr n
  | .scalar (.strv s) => s
  | .scalar (.floatv _) => "float"
  | .scalar .nonev => "None"
  | .listv _ => "list"

/-- One entry of `price_updates`: a dict whose required fields may be
missing (`none`).  `has_hr_suffix` is read with `.get(_, False)` in the
source and is modelled directly as its truth value. -/
structure UpdateDict where
  bbox : Option PyVal
  new_value : Option PyVal
  page_num : Option PyVal
  font_size : Option PyVal
  color : Option PyVal
  id : Option PyVal
  has_hr_suffix : Bool
deriving DecidableEq

/-- The ` (price #...)` suffix used by the validation error messages
(`update.get('id')`; `None` renders as the empty suffix). -/
def UpdateDict.idStr (u : UpdateDict) : String :=
  match u.id with
  | none => ""
  | some (.scalar .nonev) => ""
  | some v => " (price #" ++ v.render ++ ")"

/-- `MIN_BBOX_DIMENSION` from update_pdf.py. -/
def MIN_BBOX_DIMENSION : ℚ := 1 / 10

/-- The per-coordinate checks of the pre-flight bbox validation: a number,
not NaN, not infinite (in source order). -/
def check_coord (pre nm : String) (c : PyScalar) : Option String :=
  if !c.isNumber then some (pre ++ ": bbox " ++ nm ++ " must be a number")
  else if c.isNaN then some (pre ++ ": bbox " ++ nm ++ " is NaN")
  else if c.isInf then some (pre ++ ": bbox " ++ nm ++ " is infinite")
  else none

/-- The geometric checks of the pre-flight bbox validation, after the four
coordinates are known to be finite numbers (source order: negative
coordinates, x-order, y-order, minimum width, minimum height). -/
def check_rect (pre : String) (a b c d : PyScalar) : Option String :=
  match a.numVal, b.numVal, c.numVal, d.numVal with
  | some x0, some y0, some x1, some y1 =>
    if x0 < 0 || y0 < 0 || x1 < 0 || y1 < 0 then
      some (pre ++ ": bbox contains negative coordinates")
    else if x1 ≤ x0 then some (pre ++ ": bbox x0 must be less than x1")
    else if y1 ≤ y0 then some (pre ++ ": bbox y0 must be less than y1")
    else if x1 - x0 < MIN_BBOX_DIMENSION then some (pre ++ ": bbox width is too small")
    else if y1 - y0 < MIN_BBOX_DIMENSION then some (pre ++ ": bbox height is too small")
    else none
  | _, _, _, _ => none

/-- Pre-flight validation of the `bbox` field. -/
def check_bbox (pre : String) : PyVal → Option String
  | .scalar _ => some (pre ++ ": 'bbox' must be a list or tuple")
  | .listv l =>
    match l with
    | [a, b, c, d] =>
      check_coord pre "x0" a <|> check_coord pre "y0" b <|>
        check_coord pre "x1" c <|> check_coord pre "y1" d <|>
        check_rect pre a b c d
    | _ => some (pre ++ ": 'bbox' must have exactly 4 elements (x0, y0, x1, y1)")

/-- Pre-flight validation of the `font_size` field: a finite positive
number. -/
def check_font_size (pre : String) : PyVal → Option String
  | .listv _ => some (pre ++ ": 'font_size' must be a number, got list")
  | .scalar s =>
    if !s.isNumber then some (pre ++ ": 'font_size' must be a number")
    else if s.isNaN || s.isInf then some (pre ++ ": 'font_size' must be a finite number")
    else
      match s.numVal with
      | some q => if q ≤ 0 then some (pre ++ ": 'font_size' must be positive") else none
      | none => none

/-- Pre-flight validation of the `new_value` field: a finite number in
`(0, 10000000]`. -/
def check_new_value (pre : String) : PyVal → Option String
  | .listv _ => some (pre ++ ": 'new_value' must be a number, got list")
  | .scalar s =>
    if !s.isNumber then some (pre ++ ": 'new_value' must be a number")
    else if s.isNaN then some (pre ++ ": 'new_value' is NaN")
    else if s.isInf then some (pre ++ ": 'new_value' is infinite")
    else
      match s.numVal with
      | some q =>
        if q ≤ 0 then some (pre ++ ": 'new_value' must be positive")
        else if (10000000 : ℚ) < q then
          some (pre ++ ": 'new_value' exceeds maximum allowed (10,000,000)")
        else none
      | none => none

/-- Pre-flight validation of one color channel: a finite number in
`[0, 1]`. -/
def check_channel (pre nm : String) (c : PyScalar) : Option String :=
  if !c.isNumber then some (pre ++ ": color " ++ nm ++ " must be a number")
  else if c.isNaN || c.isInf then some (pre ++ ": color " ++ nm ++ " must be a finite number")
  else
    match c.numVal with
    | some q =>
      if q < 0 || 1 < q then some (pre ++ ": color " ++ nm ++ " must be in range [0, 1]")
      else none
    | none => none

/-- Pre-flight validation of the `color` field. -/
def check_color (pre : String) : PyVal → Option String
  | .scalar _ => some (pre ++ ": 'color' must be a list or tuple")
  | .listv l =>
    match l with
    | [r, g, b] =>
      check_channel pre "red" r <|> check_channel pre "green" g <|>
        check_channel pre "blue" b
    | _ => some (pre ++ ": 'color' must have exactly 3 elements (r, g, b)")

/-- The required-field presence loop of the pre-flight stage, in source
order (`bbox`, `new_value`, `page_num`, `font_size`, `color`). -/
def check_required (pre : String) (u : UpdateDict) : Option String :=
  if u.bbox.isNone then some (pre ++ " missing required field 'bbox'")
  else if u.new_value.isNone then some (pre ++ " missing required field 'new_value'")
  else if u.page_num.isNone then some (pre ++ " missing required field 'page_num'")
  else if u.font_size.isNone then some (pre ++ " missing required field 'font_size'")
  else if u.color.isNone then some (pre ++ " missing required field 'color'")
  else none

/-- The full pre-flight validation of one update, in source order.  The
result is the first violation found, `none` when the update is valid. -/
def validate_update (i : ℕ) (u : UpdateDict) : Option String :=
  let pre := "Update at index " ++ Nat.repr i
  let pre2 := pre ++ u.idStr
  check_required pre u <|>
    (match u.bbox with
     | some bv => check_bbox pre2 bv
     | none => none) <|>
    (match u.font_size with
     | some fv => check_font_size pre2 fv
     | none => none) <|>
    (match u.new_value with
     | some nv => check_new_value pre2 nv
     | none => none) <|>
    (match u.color with
     | some cv => check_color pre2 cv
     | none => none)

/-- The pre-flight loop over the whole batch: the first error aborts. -/
def validate_updates : ℕ → List UpdateDict → Option String
  | _, [] => none
  | i, u :: rest => validate_update i u <|> validate_updates (i + 1) rest

/-! ## Price formatting from update_pdf.py -/

/-- The little-endian decimal digit characters of a natural number. -/
def natDigitsRev (n : ℕ) : List Char :=
  if h : n < 10 then [Nat.digitChar n]
  else Nat.digitChar (n % 10) :: natDigitsRev (n / 10)
decreasing_by exact Nat.div_lt_self (by omega) (by omega)

/-- Insert a thousands separator after every third little-endian digit. -/
def groupDigitsRev : List Char → List Char
  | a :: b :: c :: d :: rest => a :: b :: c :: ',' :: groupDigitsRev (d :: rest)
  | l => l

/-- Python `f"{n:,}"` for a natural number, as characters. -/
def groupThousands (n : ℕ) : List Char :=
  (groupDigitsRev (natDigitsRev n)).reverse

/-- The two fractional digit characters of `f"{v:,.2f}"`. -/
def pad2 (k : ℕ) : List Char :=
  [Nat.digitChar (k / 10), Nat.digitChar (k % 10)]

/-- The characters of `format_new_price` for a non-negative value: integral
values print with no decimals, others with exactly two (rounding of values
that need more than two decimals approximates the float formatting of the
source, which is exact on the at-most-two-decimal values used here). -/
def format_chars (v : ℚ) (hasHr : Bool) : List Char :=
  let base :=
    if v.den = 1 then '$' :: groupThousands v.num.toNat
    else
      '$' :: groupThousands ((⌊v * 100 + 1 / 2⌋).toNat / 100) ++
        '.' :: pad2 ((⌊v * 100 + 1 / 2⌋).toNat % 100)
  if hasHr then base ++ ['/', 'h', 'r'] else base

/-- `format_new_price` from update_pdf.py: `$`, thousands grouping, two
decimals only for non-integral values, `/hr` re-appended on request.
`none` models the `ValueError` raised on negative input (NaN and infinity
cannot inhabit `ℚ`). -/
def format_new_price (v : ℚ) (hasHr : Bool) : Option String :=
  if v < 0 then none
  else some (String.mk (format_chars v hasHr))

/-! ## Per-page processing and persistence from update_pdf.py

The PDF library and the file system are abstracted into an environment:
page sizes come from `pages`, the return code of `insert_text` from
`insertRc`, and path canonicalization from `realpath`.  Every library call
with a side effect is recorded as a `PdfEffect` in call order.  Library
exceptions (corrupt documents, I/O failures during save) are outside this
model; the KeyError raised by the source when an update lacks the `id` key
is modelled, because it is reachable through validation.
-/

/-- A page with its physical dimensions (`page.rect`). -/
structure PdfPage where
  width : ℚ
  height : ℚ
deriving DecidableEq

/-- The abstract environment of `update_prices`. -/
structure UpdateEnv where
  realpath : String → String
  pages : List PdfPage
  insertRc : ℕ → (ℚ × ℚ) → String → ℚ → (ℚ × ℚ × ℚ) → ℤ

/-- The recorded side effects of a run of `update_prices`. -/
inductive PdfEffect
  | openDoc (path : String)
  | addRedact (page : ℕ) (rect : Rect)
  | applyRedactions (page : ℕ)
  | cleanContents (page : ℕ)
  | insertText (page : ℕ) (point : ℚ × ℚ) (text : String)
  | saveTemp
  | replaceOutput (path : String)
deriving DecidableEq

/-- The value of the `results` dict returned by `update_prices`. -/
structure UpdateResult where
  success : Bool
  updated : List (PyVal × String)
  errors : List String
deriving DecidableEq

/-- Mutable state threaded through the page loop: the `results` dict, the
effect log, and a pending exception (a raised exception aborts everything
that follows). -/
structure RunState where
  success : Bool
  updated : List (PyVal × String)
  errors : List String
  effects : List PdfEffect
  raised : Option String
deriving DecidableEq

/-- The bbox of a validated update, as a rectangle. -/
def UpdateDict.rect? (u : UpdateDict) : Option Rect :=
  match u.bbox with
  | some (.listv [a, b, c, d]) =>
    match a.numVal, b.numVal, c.numVal, d.numVal with
    | some x0, some y0, some x1, some y1 => some { x0 := x0, y0 := y0, x1 := x1, y1 := y1 }
    | _, _, _, _ => none
  | _ => none

/-- The finite numeric `new_value` of a validated update. -/
def UpdateDict.newValue? (u : UpdateDict) : Option ℚ :=
  match u.new_value with
  | some (.scalar s) => s.numVal
  | _ => none

/-- The finite numeric `font_size` of a validated update. -/
def UpdateDict.fontSize? (u : UpdateDict) : Option ℚ :=
  match u.font_size with
  | some (.scalar s) => s.numVal
  | _ => none

/-- The rgb triple of a validated update. -/
def UpdateDict.colorRGB? (u : UpdateDict) : Option (ℚ × ℚ × ℚ) :=
  match u.color with
  | some (.listv [r, g, b]) =>
    match r.numVal, g.numVal, b.numVal with
    | some qr, some qg, some qb => some (qr, qg, qb)
    | _, _, _ => none
  | _ => none

/-- Grouping of the batch by `page_num` (`updates_by_page`): keys in first
occurrence order, each group in batch order, exactly as a Python dict
built by appending. -/
def groupByPage (l : List UpdateDict) : List (PyVal × List UpdateDict) :=
  l.foldl (fun acc u =>
    let k := u.page_num.getD (PyVal.scalar .nonev)
    if acc.any (fun p => p.1 == k) then
      acc.map (fun p => if p.1 == k then (p.1, p.2 ++ [u]) else p)
    else acc ++ [(k, [u])]) []

/-- The page-bounds check (tolerance 1.0): `x1` against the page width,
then `y1` against the page height; `none` when the bbox fits. -/
def boundsCheck (pageIdx : ℕ) (w h : ℚ) (u : UpdateDict) : Option String :=
  match u.rect? with
  | some r =>
    if w + 1 < r.x1 then
      some ("Page " ++ Nat.repr (pageIdx + 1) ++ u.idStr ++ ": bbox x1 exceeds page width")
    else if h + 1 < r.y1 then
      some ("Page " ++ Nat.repr (pageIdx + 1) ++ u.idStr ++ ": bbox y1 exceeds page height")
    else none
  | none => none

/-- The vertically shrunk redaction rectangle (10% off top and bottom). -/
def tightRect (r : Rect) : Rect :=
  let margin := (r.y1 - r.y0) * (1 / 10)
  { x0 := r.x0, y0 := r.y0 + margin, x1 := r.x1, y1 := r.y1 - margin }

/-- One iteration of the redaction loop: queue the redaction annotation,
then evaluate the debug message, whose `update['id']` lookup raises
KeyError when the update has no id (the KeyError is not caught by the
surrounding handlers). -/
def redactionPhase (pn : ℕ) (st : RunState) (u : UpdateDict) : RunState :=
  if st.raised.isSome then st
  else
    match u.rect? with
    | some r =>
      let st1 := { st with effects := st.effects ++ [PdfEffect.addRedact pn (tightRect r)] }
      match u.id with
      | some _ => st1
      | none => { st1 with raised := some "KeyError: 'id'" }
    | none => st

/-- The baseline insertion point: bottom-left corner raised by
`font_size * BASELINE_OFFSET_FACTOR` (factor `0.2`). -/
def insertPoint (r : Rect) (fontSize : ℚ) : ℚ × ℚ :=
  (r.x0, r.y1 - fontSize * (1 / 5))

/-- One iteration of the text-insertion loop: format the replacement text
(a `ValueError` becomes a per-item error), call `insert_text`, log and
record on a positive return code, otherwise record a per-item error; the
`update['id']` lookups in the log/record steps raise KeyError when the id
is missing. -/
def insertionPhase (env : UpdateEnv) (pn : ℕ) (st : RunState) (u : UpdateDict) : RunState :=
  if st.raised.isSome then st
  else
    match u.rect?, u.newValue?, u.fontSize?, u.colorRGB? with
    | some r, some v, some fs, some col =>
      match format_new_price v u.has_hr_suffix with
      | none =>
        match u.id with
        | some i =>
          let msg := "Invalid parameters for text insertion on price #" ++ i.render
          { st with errors := st.errors ++ [msg], success := false }
        | none => { st with raised := some "KeyError: 'id'" }
      | some txt =>
        let pt := insertPoint r fs
        let rc := env.insertRc pn pt txt fs col
        let st1 := { st with effects := st.effects ++ [PdfEffect.insertText pn pt txt] }
        match u.id with
        | none => { st1 with raised := some "KeyError: 'id'" }
        | some i =>
          if 0 < rc then { st1 with updated := st1.updated ++ [(i, txt)] }
          else if rc = 0 && !(txt == "") then
            let msg := "insert_text inserted 0 characters for price #" ++ i.render
            { st1 with errors := st1.errors ++ [msg], success := false }
          else
            let msg := "insert_text returned " ++ Int.repr rc ++ " for price #" ++ i.render
            { st1 with errors := st1.errors ++ [msg], success := false }
    | _, _, _, _ => st

/-- Processing of one group of the page loop: type and range checks on the
page index, the in-bounds partition, the redaction batch, and the
insertion loop. -/
def processPage (env : UpdateEnv) (st : RunState) (key : PyVal)
    (us : List UpdateDict) : RunState :=
  if st.raised.isSome then st
  else
    match key with
    | .scalar (.intv n) =>
      if n < 0 || (env.pages.length : ℤ) ≤ n then
        let msg := "page_num " ++ Int.repr n ++ " is out of range (PDF has " ++
          Nat.repr env.pages.length ++ " pages)"
        { st with errors := st.errors ++ [msg], success := false }
      else
        let pn := n.toNat
        let pg := env.pages.getD pn { width := 0, height := 0 }
        let berrs := us.filterMap (boundsCheck pn pg.width pg.height)
        let valid := us.filter (fun u => (boundsCheck pn pg.width pg.height u).isNone)
        let st1 := { st with errors := st.errors ++ berrs, success := st.success && berrs.isEmpty }
        let st2 := valid.foldl (redactionPhase pn) st1
        if st2.raised.isSome then st2
        else
          let st3 := { st2 with effects := st2.effects ++ [PdfEffect.applyRedactions pn, PdfEffect.cleanContents pn] }
          valid.foldl (insertionPhase env pn) st3
    | k =>
      let msg := "Invalid page_num type: expected int, got " ++ k.typeName
      { st with errors := st.errors ++ [msg], success := false }

/-- `update_prices` from update_pdf.py.  The same-path guard and the
pre-flight validation run before the document is opened; afterwards the
batch is grouped by page and processed page by page, and the document is
saved to a temporary file which atomically replaces the output path.  An
uncaught exception is returned as `.error` (nothing is saved); save-stage
I/O failures are outside the model. -/
def update_prices (env : UpdateEnv) (input_pdf_path output_pdf_path : String)
    (price_updates : List UpdateDict) : Except String UpdateResult × List PdfEffect :=
  if env.realpath input_pdf_path == env.realpath output_pdf_path then
    (.ok { success := false, updated := [],
           errors := ["Output path cannot be the same as input path: '" ++
             input_pdf_path ++ "'. This would overwrite the original PDF and cause data loss."] },
     [])
  else
    match validate_updates 0 price_updates with
    | some e => (.ok { success := false, updated := [], errors := [e] }, [])
    | none =>
      let st0 : RunState :=
        { success := true, updated := [], errors := [],
          effects := [PdfEffect.openDoc input_pdf_path], raised := none }
      let st := (groupByPage price_updates).foldl
        (fun s g => processPage env s g.1 g.2) st0
      match st.raised with
      | some e => (.error e, st.effects)
      | none =>
        ( .ok { success := st.success, updated := st.updated, errors := st.errors },
          st.effects ++ [PdfEffect.saveTemp, PdfEffect.replaceOutput output_pdf_path])

/-- The redaction effect an update will contribute on its page. -/
def plannedRedact (pn : ℕ) (u : UpdateDict) : Option PdfEffect :=
  u.rect?.map (fun r => PdfEffect.addRedact pn (tightRect r))

/-- The insertion effect an update will contribute on its page. -/
def plannedInsertText (pn : ℕ) (u : UpdateDict) : Option PdfEffect :=
  match u.rect?, u.newValue?, u.fontSize?, u.colorRGB? with
  | some r, some v, some fs, some _ =>
    (format_new_price v u.has_hr_suffix).map
      (fun txt => PdfEffect.insertText pn (insertPoint r fs) txt)
  | _, _, _, _ => none

/-- A concrete environment used by the witnesses: identity path
resolution, one US-letter page, an `insert_text` that reports the inserted
character count. -/
def sampleEnv : UpdateEnv :=
  { realpath := fun s => s,
    pages := [{ width := 612, height := 792 }],
    insertRc := fun _ _ t _ _ => (t.length : ℤ) }

/-- A request dict with every field missing. -/
def uEmptyDict : UpdateDict :=
  { bbox := none, new_value := none, page_num := none, font_size := none,
    color := none, id := none, has_hr_suffix := false }

/-- Shorthand for a finite float scalar. -/
def finv (q : ℚ) : PyScalar := .floatv (.fin q)

/-- A structurally complete request with the given bbox corners, value,
page, font size and id, with black color. -/
def mkUpdate (x0 y0 x1 y1 v : ℚ) (pn : ℤ) (fs : ℚ) (idn : Option ℤ) : UpdateDict :=
  { bbox := some (.listv [finv x0, finv y0, finv x1, finv y1]),
    new_value := some (.scalar (finv v)),
    page_num := some (.scalar (.intv pn)),
    font_size := some (.scalar (finv fs)),
    color := some (.listv [finv 0, finv 0, finv 0]),
    id := idn.map (fun n => PyVal.scalar (.intv n)),
    has_hr_suffix := false }

/-- A request with a degenerate bbox (`x0 = x1`). -/
def uDegenerateBbox : UpdateDict := mkUpdate 10 20 10 40 650 0 8 (some 1)

/-- A request whose new value is NaN. -/
def uNanValue : UpdateDict :=
  { mkUpdate 10 20 30 40 1 0 8 (some 1) with new_value := some (.scalar (.floatv .nan)) }

/-- A request whose new value exceeds the 10,000,000 cap. -/
def uHugeValue : UpdateDict := mkUpdate 10 20 30 40 10000001 0 8 (some 1)

/-- A request with font size zero. -/
def uBadFont : UpdateDict := mkUpdate 10 20 30 40 650 0 0 (some 1)

/-- A request with an out-of-range color channel. -/
def uBadColor : UpdateDict :=
  { mkUpdate 10 20 30 40 650 0 8 (some 1) with
    color := some (.listv [finv 2, finv 0, finv 0]) }

/-- A concrete price box used by the description-search witness. -/
def samplePriceBox : Rect := { x0 := 100, y0 := 10, x1 := 120, y1 := 20 }

/-- Concrete spans for the description-search witness: two same-line
candidates at different gaps and one candidate above. -/
def sampleSpans : List Span :=
  [{ text := "Widget", bbox := { x0 := 0, y0 := 10, x1 := 50, y1 := 20 } },
   { text := "Gadget", bbox := { x0 := 60, y0 := 10, x1 := 90, y1 := 20 } },
   { text := "Header", bbox := { x0 := 90, y0 := 0, x1 := 130, y1 := 5 } }]

/-! ## Theorems -/

/-- Claim C10: a failed extraction leaves the document state exactly as it
was (no component is cleared or replaced), and a successful load replaces
path and cache together as one pair. -/
theorem C10_load_pdf_atomic (extract : String → Except String (List PriceItem))
    (st : DocState) (path : String) :
    (∀ e, extract path = .error e → load_pdf extract st path = (.error e, st)) ∧
    (∀ prices, extract path = .ok prices →
      load_pdf extract st path =
        (.ok prices, { current_pdf_path := some path, prices_cache := some prices })) := by
  constructor
  · intro e h
    simp [load_pdf, h]
  · intro prices h
    simp [load_pdf, h]

/-- Witness for C10 at a concrete failing extractor and a concrete
pre-existing state. -/
theorem C10_load_pdf_atomic_witness :
    load_pdf (fun _ => Except.error "boom")
      { current_pdf_path := some "/old.pdf", prices_cache := some [] } "/new.pdf" =
      (Except.error "boom",
        { current_pdf_path := some "/old.pdf", prices_cache := some [] }) :=
  (C10_load_pdf_atomic (fun _ => Except.error "boom")
    { current_pdf_path := some "/old.pdf", prices_cache := some [] } "/new.pdf").1 "boom" rfl

/-- Claim C4: the derived output name increments the first standalone year
token in 2020..2099 and otherwise appends `_updated`, on the five
specification examples. -/
theorem C4_year_increment_examples :
    derive_output_name "PriceList_2025" = "PriceList_2026" ∧
    derive_output_name "Archive_2019" = "Archive_2019_updated" ∧
    derive_output_name "Model2025X" = "Model2025X_updated" ∧
    derive_output_name "PriceList_2099" = "PriceList_2100" ∧
    derive_output_name "PriceList_2024_to_2025" = "PriceList_2025_to_2025" := by
  refine ⟨?_, ?_, ?_, ?_, ?_⟩ <;> decide

/-- Claim C6: when input and output resolve to the same canonical path,
`update_prices` fails immediately with the descriptive error and performs
no effect at all: nothing is opened, written or removed. -/
theorem C6_same_path_rejected (env : UpdateEnv) (ip op : String)
    (updates : List UpdateDict) (h : env.realpath ip = env.realpath op) :
    update_prices env ip op updates =
      (.ok { success := false, updated := [],
             errors := ["Output path cannot be the same as input path: '" ++ ip ++
               "'. This would overwrite the original PDF and cause data loss."] },
       []) := by
  simp [update_prices, h]

/-- Witness for C6: identical literal paths through the identity
`realpath` of the sample environment. -/
theorem C6_same_path_rejected_witness :
    update_prices sampleEnv "/docs/a.pdf" "/docs/a.pdf" [] =
      (.ok { success := false, updated := [],
             errors := ["Output path cannot be the same as input path: '/docs/a.pdf'. This would overwrite the original PDF and cause data loss."] },
       []) :=
  C6_same_path_rejected sampleEnv "/docs/a.pdf" "/docs/a.pdf" [] rfl

/-- Claim C1: whenever the pre-flight validation of the batch reports a
violation, `update_prices` returns `success = false` with an empty updated
list and exactly that one error, and produces no effect: no document is
opened and the output path is never created or modified.  The extra
conjuncts exhibit one violation of each category named by the claim:
missing field, degenerate bbox, non-finite new value, out-of-range new
value, bad font size, bad color. -/
theorem C1_preflight_aborts_with_no_effects :
    (∀ (env : UpdateEnv) (ip op : String) (updates : List UpdateDict),
      (validate_updates 0 updates).isSome = true →
      ∃ e, update_prices env ip op updates =
        (.ok { success := false, updated := [], errors := [e] }, [])) ∧
    (validate_update 0 uEmptyDict).isSome = true ∧
    (validate_update 0 uDegenerateBbox).isSome = true ∧
    (validate_update 0 uNanValue).isSome = true ∧
    (validate_update 0 uHugeValue).isSome = true ∧
    (validate_update 0 uBadFont).isSome = true ∧
    (validate_update 0 uBadColor).isSome = true := by
  have tac : ∀ u : UpdateDict, (validate_update 0 u).isSome = (validate_update 0 u).isSome :=
    fun _ => rfl
  refine ⟨?_, by decide, by decide, ?nan, ?huge, ?font, ?color⟩
  case nan =>
    norm_num [validate_update, check_required, check_bbox, check_coord, check_rect,
      check_font_size, check_new_value, check_color, check_channel, uNanValue, mkUpdate,
      finv, MIN_BBOX_DIMENSION, PyScalar.isNumber, PyScalar.isNaN, PyScalar.isInf,
      PyScalar.numVal, UpdateDict.idStr, PyVal.render, Option.orElse, HOrElse.hOrElse,
      OrElse.orElse]
  case huge =>
    norm_num [validate_update, check_required, check_bbox, check_coord, check_rect,
      check_font_size, check_new_value, check_color, check_channel, uHugeValue, mkUpdate,
      finv, MIN_BBOX_DIMENSION, PyScalar.isNumber, PyScalar.isNaN, PyScalar.isInf,
      PyScalar.numVal, UpdateDict.idStr, PyVal.render, Option.orElse, HOrElse.hOrElse,
      OrElse.orElse]
  case font =>
    norm_num [validate_update, check_required, check_bbox, check_coord, check_rect,
      check_font_size, check_new_value, check_color, check_channel, uBadFont, mkUpdate,
      finv, MIN_BBOX_DIMENSION, PyScalar.isNumber, PyScalar.isNaN, PyScalar.isInf,
      PyScalar.numVal, UpdateDict.idStr, PyVal.render, Option.orElse, HOrElse.hOrElse,
      OrElse.orElse]
  case color =>
    norm_num [validate_update, check_required, check_bbox, check_coord, check_rect,
      check_font_size, check_new_value, check_color, check_channel, uBadColor, mkUpdate,
      finv, MIN_BBOX_DIMENSION, PyScalar.isNumber, PyScalar.isNaN, PyScalar.isInf,
      PyScalar.numVal, UpdateDict.idStr, PyVal.render, Option.orElse, HOrElse.hOrElse,
      OrElse.orElse]
  intro env ip op updates h
  by_cases heq : env.realpath ip = env.realpath op
  · refine ⟨"Output path cannot be the same as input path: '" ++ ip ++
      "'. This would overwrite the original PDF and cause data loss.", ?_⟩
    simp [update_prices, heq]
  · cases hv : validate_updates 0 updates with
    | none => rw [hv] at h; simp at h
    | some e =>
      refine ⟨e, ?_⟩
      simp [update_prices, heq, hv]

/-- Witness for C1 at a concrete batch containing a request with every
field missing. -/
theorem C1_preflight_aborts_with_no_effects_witness :
    ∃ e, update_prices sampleEnv "/a.pdf" "/b.pdf" [uEmptyDict] =
      (.ok { success := false, updated := [], errors := [e] }, []) :=
  C1_preflight_aborts_with_no_effects.1 sampleEnv "/a.pdf" "/b.pdf" [uEmptyDict] (by decide)

/-- Claim C9 counterexample: DEL (U+007F) is a control character, but the
log endpoint writes it through unchanged, so the logged text is not the
message with all control characters stripped. -/
theorem C9_log_counterexample :
    isControlChar '\x7f' = true ∧
    specStripControls "\x7f" = "" ∧
    log_endpoint "\x7f" = ("[UI] \x7f", true) := by
  refine ⟨by decide, by decide, by decide⟩

/-- Claim C9 (amended): the logged text is the message with the characters
below U+0020 stripped (tabs kept) — DEL and the C1 controls survive —
truncated to 500 characters with a note of the hidden count when longer,
and the endpoint always reports success. -/
theorem C9_log_sanitize_truncate (m : String) :
    (log_endpoint m).2 = true ∧
    sanitize_log_message m =
      String.mk (m.toList.filter (fun c => !(c.val < 0x20) || c == '\t')) ∧
    (∀ c ∈ (sanitize_log_message m).toList, c.val < 0x20 → c = '\t') ∧
    ((sanitize_log_message m).length ≤ LOG_MAX_LENGTH →
      (log_endpoint m).1 = "[UI] " ++ sanitize_log_message m) ∧
    (LOG_MAX_LENGTH < (sanitize_log_message m).length →
      (log_endpoint m).1 =
        "[UI] " ++ String.mk ((sanitize_log_message m).toList.take LOG_MAX_LENGTH) ++
          "... [TRUNCATED: " ++
          Nat.repr ((sanitize_log_message m).length - LOG_MAX_LENGTH) ++ " chars hidden]") := by
  refine ⟨?_, ?_, ?_, ?_, ?_⟩
  · unfold log_endpoint
    dsimp only
    split <;> rfl
  · unfold sanitize_log_message
    congr 1
    apply List.filter_congr
    intro c _
    show (' ' ≤ c || c == '\t') = (!(c.val < 0x20) || c == '\t')
    by_cases h : ' ' ≤ c
    · have : ¬(c.val < 0x20) := by
        simpa [Char.le_def] using h
      simp [h, this]
    · have : c.val < 0x20 := by
        simpa [Char.le_def] using h
      simp [h, this]
  · intro c hc hlt
    unfold sanitize_log_message at hc
    have hmem : c ∈ m.toList.filter (fun c => ' ' ≤ c || c == '\t') := hc
    have := (List.mem_filter.mp hmem).2
    rcases Bool.or_eq_true _ _ |>.mp this with h | h
    · exact absurd hlt (by simpa [Char.le_def] using h)
    · exact beq_iff_eq.mp h
  · intro h
    unfold log_endpoint
    rw [if_neg (by omega)]
  · intro h
    unfold log_endpoint
    rw [if_pos h]

/-- Witness for C9 (amended) at a short concrete message: the logged line
is the sanitized message without truncation. -/
theorem C9_log_sanitize_truncate_witness :
    (log_endpoint "hi").1 = "[UI] " ++ sanitize_log_message "hi" :=
  (C9_log_sanitize_truncate "hi").2.2.2.1 (by decide)

/-- Claim C5: `is_allowed` admits exactly when fewer than `max` previously
recorded timestamps are still strictly inside the window, appends `now` on
admission and records nothing new on rejection, touches no other key and no
parameter; with the default limits, eleven calls in one window admit the
first ten and reject the eleventh, and a call after the window has passed
is admitted again. -/
theorem C5_rate_limiter_sliding_window :
    (∀ (rl : RateLimiter) (key : String) (now : ℚ),
      ((is_allowed rl key now).1 =
        decide (((rl.requests key).filter
          (fun t => decide (now - rl.windowSeconds < t))).length < rl.maxRequests)) ∧
      ((is_allowed rl key now).2.requests key =
        (if ((rl.requests key).filter
              (fun t => decide (now - rl.windowSeconds < t))).length < rl.maxRequests then
          ((rl.requests key).filter (fun t => decide (now - rl.windowSeconds < t))) ++ [now]
        else
          (rl.requests key).filter (fun t => decide (now - rl.windowSeconds < t)))) ∧
      (∀ k, k ≠ key → (is_allowed rl key now).2.requests k = rl.requests k) ∧
      (is_allowed rl key now).2.maxRequests = rl.maxRequests ∧
      (is_allowed rl key now).2.windowSeconds = rl.windowSeconds) ∧
    (runCalls (RateLimiter.init 10 1) "k" (List.replicate 11 0)).1 =
      List.replicate 10 true ++ [false] ∧
    (is_allowed ((runCalls (RateLimiter.init 10 1) "k" (List.replicate 11 0)).2) "k" (3 / 2)).1
      = true := by
  refine ⟨?_, ?_, ?_⟩
  · intro rl key now
    unfold is_allowed
    dsimp only
    split_ifs with h
    · refine ⟨by simp [h], by simp [h], ?_, rfl, rfl⟩
      intro k hk
      simp [beq_eq_false_iff_ne.mpr hk]
    · refine ⟨by simp [h], by simp [h], ?_, rfl, rfl⟩
      intro k hk
      simp [beq_eq_false_iff_ne.mpr hk]
  · norm_num [runCalls, is_allowed, RateLimiter.init, List.replicate]
  · norm_num [runCalls, is_allowed, RateLimiter.init, List.replicate]

/-- Witness for C5: the per-call characterization instantiated at a
limiter holding one fresh timestamp — the call is admitted — and key
independence at a different key. -/
theorem C5_rate_limiter_sliding_window_witness :
    ((is_allowed (RateLimiter.init 10 1) "a" 0).1 = true) ∧
    ((is_allowed (RateLimiter.init 10 1) "a" 0).2.requests "b" = []) := by
  refine ⟨?_, ?_⟩
  · have h := (C5_rate_limiter_sliding_window.1 (RateLimiter.init 10 1) "a" 0).1
    simpa [RateLimiter.init] using h
  · exact (C5_rate_limiter_sliding_window.1 (RateLimiter.init 10 1) "a" 0).2.2.1 "b"
      (by decide)

/-- `pickClosest` returns `none` exactly on the empty candidate list. -/
theorem pickClosest_eq_none (l : List (ℚ × String)) : pickClosest l = none ↔ l = [] := by
  cases l with
  | nil => simp [pickClosest]
  | cons x xs =>
    simp only [pickClosest]
    cases h : pickClosest xs with
    | none => simp
    | some y => simp only [h]; split <;> simp

/-- On a nonempty candidate list, `pickClosest` returns a member of the
list with minimal distance (the first such, matching the stable sort of
the source). -/
theorem pickClosest_spec (l : List (ℚ × String)) (h : l ≠ []) :
    ∃ c, pickClosest l = some c ∧ c ∈ l ∧ ∀ d ∈ l, c.1 ≤ d.1 := by
  induction l with
  | nil => exact absurd rfl h
  | cons x xs ih =>
    cases hx : pickClosest xs with
    | none =>
      have hxs : xs = [] := (pickClosest_eq_none xs).mp hx
      subst hxs
      exact ⟨x, by simp [pickClosest], by simp, by simp⟩
    | some y =>
      have hne : xs ≠ [] := by
        intro hh
        rw [hh] at hx
        simp [pickClosest] at hx
      obtain ⟨c, hc, hmem, hmin⟩ := ih hne
      rw [hx] at hc
      cases hc
      by_cases hlt : y.1 < x.1
      · refine ⟨y, by simp [pickClosest, hx, hlt], by simp [hmem], ?_⟩
        intro d hd
        rcases List.mem_cons.mp hd with rfl | hd
        · exact le_of_lt hlt
        · exact hmin d hd
      · refine ⟨x, by simp [pickClosest, hx, hlt], by simp, ?_⟩
        intro d hd
        rcases List.mem_cons.mp hd with rfl | hd
        · exact le_rfl
        · exact le_trans (not_lt.mp hlt) (hmin d hd)

/-- Claim C8: the two-phase search returns the closest same-line candidate
when one exists (smallest horizontal gap, same-line candidates always
preferred), otherwise the closest above candidate (smallest vertical gap),
otherwise the literal placeholder. -/
theorem C8_description_two_phase (pb : Rect) (spans : List Span) (tol : ℚ) :
    (sameLineCands pb tol spans ≠ [] →
      ∃ c, c ∈ sameLineCands pb tol spans ∧
        (∀ d ∈ sameLineCands pb tol spans, c.1 ≤ d.1) ∧
        find_description_for_price pb spans tol = c.2) ∧
    (sameLineCands pb tol spans = [] → aboveCands pb tol spans ≠ [] →
      ∃ c, c ∈ aboveCands pb tol spans ∧
        (∀ d ∈ aboveCands pb tol spans, c.1 ≤ d.1) ∧
        find_description_for_price pb spans tol = c.2) ∧
    (sameLineCands pb tol spans = [] → aboveCands pb tol spans = [] →
      find_description_for_price pb spans tol = "Unknown item") := by
  refine ⟨?_, ?_, ?_⟩
  · intro h
    obtain ⟨c, hpick, hmem, hmin⟩ := pickClosest_spec _ h
    exact ⟨c, hmem, hmin, by simp [find_description_for_price, hpick]⟩
  · intro h1 h2
    obtain ⟨c, hpick, hmem, hmin⟩ := pickClosest_spec _ h2
    have hnone : pickClosest (sameLineCands pb tol spans) = none := by
      rw [h1]; rfl
    exact ⟨c, hmem, hmin, by simp [find_description_for_price, hnone, hpick]⟩
  · intro h1 h2
    have hnone : pickClosest (sameLineCands pb tol spans) = none := by
      rw [h1]; rfl
    have hnone2 : pickClosest (aboveCands pb tol spans) = none := by
      rw [h2]; rfl
    simp [find_description_for_price, hnone, hnone2]

/-- Evaluation of the same-line candidates of the sample page: both
same-line spans appear with their gaps, the above span does not. -/
theorem sample_same_line_cands_eval :
    sameLineCands samplePriceBox 5 sampleSpans = [(50, "Widget"), (10, "Gadget")] := by
  have hskW : spanSkipped { text := "Widget", bbox := { x0 := 0, y0 := 10, x1 := 50, y1 := 20 } } = false := by decide
  have hskG : spanSkipped { text := "Gadget", bbox := { x0 := 60, y0 := 10, x1 := 90, y1 := 20 } } = false := by decide
  have hskH : spanSkipped { text := "Header", bbox := { x0 := 90, y0 := 0, x1 := 130, y1 := 5 } } = false := by decide
  have hpW : pyStrip "Widget" = "Widget" := by decide
  have hpG : pyStrip "Gadget" = "Gadget" := by decide
  have hsW : spanSameLine samplePriceBox 5 { x0 := 0, y0 := 10, x1 := 50, y1 := 20 } = true := by
    norm_num [spanSameLine, samplePriceBox]
  have hsG : spanSameLine samplePriceBox 5 { x0 := 60, y0 := 10, x1 := 90, y1 := 20 } = true := by
    norm_num [spanSameLine, samplePriceBox]
  have hsH : spanSameLine samplePriceBox 5 { x0 := 90, y0 := 0, x1 := 130, y1 := 5 } = false := by
    norm_num [spanSameLine, samplePriceBox]
  simp [sameLineCands, sampleSpans, List.filter, hskW, hskG, hskH, hsW, hsG, hsH, hpW, hpG]
  norm_num [samplePriceBox]

/-- Witness for C8: on the sample page the search returns a same-line
candidate of minimal gap. -/
theorem C8_description_two_phase_witness :
    ∃ c, c ∈ sameLineCands samplePriceBox 5 sampleSpans ∧
      (∀ d ∈ sameLineCands samplePriceBox 5 sampleSpans, c.1 ≤ d.1) ∧
      find_description_for_price samplePriceBox sampleSpans 5 = c.2 :=
  (C8_description_two_phase samplePriceBox sampleSpans 5).1
    (by simp [sample_same_line_cands_eval])

/-- A value produced by `pyFloat` from a list that does not start with a
minus sign is non-negative. -/
theorem pyFloat_nonneg (l : List Char) (v : ℚ) (hv : pyFloat l = some v)
    (hh : l.head? ≠ some '-') : 0 ≤ v := by
  cases l with
  | nil => simp [pyFloat] at hv
  | cons c t =>
    have hc : (c == '-') = false := by
      simp only [List.head?] at hh
      exact beq_eq_false_iff_ne.mpr (fun hcc => hh (by rw [hcc]))
    simp only [pyFloat, hc, Bool.false_eq_true, if_false] at hv
    cases hrest : List.dropWhile Char.isDigit (c :: t) with
    | nil =>
      rw [hrest] at hv
      dsimp only at hv
      split_ifs at hv with h1
      injection hv with hv
      rw [← hv]
      positivity
    | cons c2 fp =>
      rw [hrest] at hv
      dsimp only at hv
      split_ifs at hv with h1
      injection hv with hv
      rw [← hv]
      positivity

/-- `removeHr` never introduces characters. -/
theorem mem_removeHr {c : Char} : ∀ {l : List Char}, c ∈ removeHr l → c ∈ l := by
  intro l
  induction l using removeHr.induct with
  | case1 => simp [removeHr]
  | case2 c1 => simp [removeHr]
  | case3 c1 c2 => simp [removeHr]
  | case4 c1 c2 c3 rest2 hcond ih =>
    intro h
    rw [removeHr, if_pos hcond] at h
    have := ih h
    simp [this]
  | case5 c1 c2 c3 rest2 hcond ih =>
    intro h
    rw [removeHr, if_neg hcond] at h
    rcases List.mem_cons.mp h with rfl | h
    · simp
    · have := ih h
      simp only [List.mem_cons] at this ⊢
      tauto

/-- Shape of a successful `dotTail` match. -/
theorem dotTail_eq (t : List Char) (h : dotTail t = true) :
    ∃ b c, t = ['.', b, c] ∧ b.isDigit = true ∧ c.isDigit = true := by
  match t with
  | [] => simp [dotTail] at h
  | [a] => simp [dotTail] at h
  | [a, b] => simp [dotTail] at h
  | [a, b, c] =>
    simp only [dotTail, Bool.and_eq_true, beq_iff_eq] at h
    exact ⟨b, c, by rw [h.1.1], h.1.2, h.2⟩
  | a :: b :: c :: d :: r => simp [dotTail] at h

/-- A matched numeric body contains no minus sign. -/
theorem numBody_no_dash (l : List Char) (h : numBodyMatch l = true) : '-' ∉ l := by
  unfold numBodyMatch at h
  rcases Bool.or_eq_true _ _ |>.mp h with h | h
  · simp only [Bool.and_eq_true, List.all_eq_true] at h
    intro hmem
    have := h.2 _ hmem
    simp [isDigitComma] at this
  · simp only [Bool.and_eq_true, List.all_eq_true] at h
    obtain ⟨⟨hne, hall⟩, hdot⟩ := h
    obtain ⟨b, c, hshape, hb, hc⟩ := dotTail_eq _ hdot
    intro hmem
    rw [← List.take_append_drop (l.length - 3) l] at hmem
    rcases List.mem_append.mp hmem with hmem | hmem
    · have := hall _ hmem
      simp [isDigitComma] at this
    · rw [hshape] at hmem
      simp only [List.mem_cons, List.not_mem_nil] at hmem
      rcases hmem with h1 | h1 | h1 | h1
      · exact absurd h1 (by decide)
      · subst h1
        simp at hb
      · subst h1
        simp at hc
      · exact h1

/-- A matched price body (numeric body with optional `/hr`) contains no
minus sign. -/
theorem priceBody_no_dash (l : List Char) (h : priceBody l = true) : '-' ∉ l := by
  unfold priceBody at h
  rcases Bool.or_eq_true _ _ |>.mp h with h | h
  · exact numBody_no_dash l h
  · rcases hrev : l.reverse with _ | ⟨a, tl⟩
    · rw [hrev] at h
      simp at h
    · rcases tl with _ | ⟨b, tl2⟩
      · rw [hrev] at h
        simp at h
      · rcases tl2 with _ | ⟨c, rest⟩
        · rw [hrev] at h
          simp at h
        · rw [hrev] at h
          simp only [Bool.and_eq_true, beq_iff_eq] at h
          obtain ⟨⟨⟨ha, hb⟩, hc⟩, hnum⟩ := h
          intro hmem
          have hmem2 : '-' ∈ l.reverse := List.mem_reverse.mpr hmem
          rw [hrev, ha, hb, hc] at hmem2
          simp only [List.mem_cons] at hmem2
          rcases hmem2 with h1 | h1 | h1 | h1
          · exact absurd h1 (by decide)
          · exact absurd h1 (by decide)
          · exact absurd h1 (by decide)
          · exact numBody_no_dash _ hnum (List.mem_reverse.mpr h1)

/-- Claim C3 (amended): every string the price pattern fully matches
denotes a non-negative value (a negative amount can never match), and the
single-zero forms named by the source comment are rejected; strict
positivity fails only for degenerate zero spellings such as `$00`
(see the counterexample). -/
theorem C3_price_pattern_nonneg :
    (∀ (s : String) (v : ℚ), priceFullMatch s = true →
      pyFloat (cleanedChars s) = some v → 0 ≤ v) ∧
    priceFullMatch "$0" = false ∧
    priceFullMatch "$0.00" = false ∧
    priceFullMatch "$0,0" = false ∧
    priceFullMatch "$0/hr" = false := by
  refine ⟨?_, by decide, by decide, by decide, by decide⟩
  intro s v hm hv
  unfold priceFullMatch at hm
  rcases hs : s.toList with _ | ⟨c, rest⟩
  · rw [hs] at hm
    simp at hm
  · rw [hs] at hm
    simp only [Bool.and_eq_true, beq_iff_eq] at hm
    obtain ⟨⟨⟨hc, _⟩, _⟩, hbody⟩ := hm
    have hnd : '-' ∉ rest := priceBody_no_dash rest hbody
    have hndall : '-' ∉ cleanedChars s := by
      intro hmem
      unfold cleanedChars at hmem
      have h1 := (List.mem_filter.mp hmem).1
      have h2 := mem_removeHr h1
      have h3 := (List.mem_filter.mp h2).1
      rw [hs] at h3
      rcases List.mem_cons.mp h3 with h4 | h4
      · rw [hc] at h4
        exact absurd h4 (by decide)
      · exact hnd h4
    apply pyFloat_nonneg _ _ hv
    intro hhead
    cases hcl : cleanedChars s with
    | nil => rw [hcl] at hhead; simp at hhead
    | cons a t =>
      rw [hcl] at hhead
      simp only [List.head?, Option.some.injEq] at hhead
      apply hndall
      rw [hcl, hhead]
      simp

/-- Witness for C3 (amended) at the matched string `$600`. -/
theorem C3_price_pattern_nonneg_witness : (0 : ℚ) ≤ 600 :=
  C3_price_pattern_nonneg.1 "$600" 600 (by decide) (by decide)

/-- Claim C3 counterexample: `$00` is fully matched by the price pattern
and denotes exactly zero (both as the raw float value of its cleaned text
and through `parse_price_value`), so the pattern does not exclude all
strings denoting zero. -/
theorem C3_price_pattern_zero_counterexample :
    priceFullMatch "$00" = true ∧
    pyFloat (cleanedChars "$00") = some 0 ∧
    parse_price_value "$00" = some (0, false) := by
  refine ⟨by decide, by decide, by decide⟩

/-- The redaction loop of a page: with no pending exception and every
update carrying an id, it only appends the planned redaction effects. -/
theorem redaction_fold (pn : ℕ) :
    ∀ (us : List UpdateDict) (st : RunState), st.raised = none →
      (∀ u ∈ us, u.id.isSome = true) →
      us.foldl (redactionPhase pn) st =
        { st with effects := st.effects ++ us.filterMap (plannedRedact pn) } := by
  intro us
  induction us with
  | nil =>
    intro st hr hid
    simp
  | cons u us ih =>
    intro st hr hid
    have hu := hid u (by simp)
    rw [List.foldl_cons]
    cases hrect : u.rect? with
    | none =>
      have hstep : redactionPhase pn st u = st := by
        simp [redactionPhase, hr, hrect]
      rw [hstep, ih st hr (fun v hv => hid v (by simp [hv]))]
      simp [plannedRedact, hrect]
    | some r =>
      cases hid2 : u.id with
      | none =>
        rw [hid2] at hu
        simp at hu
      | some iv =>
        have hstep : redactionPhase pn st u =
            { st with effects := st.effects ++ [PdfEffect.addRedact pn (tightRect r)] } := by
          simp [redactionPhase, hr, hrect, hid2]
        rw [hstep, ih _ (by simp [hr]) (fun v hv => hid v (by simp [hv]))]
        simp [plannedRedact, hrect]

/-- One step of the insertion loop: with no pending exception and an id
present, it appends exactly the planned insertion effect, possibly appends
errors, never raises, and never turns failure into success. -/
theorem insertionPhase_char (env : UpdateEnv) (pn : ℕ) (st : RunState) (u : UpdateDict)
    (hr : st.raised = none) (hid : u.id.isSome = true) :
    ((insertionPhase env pn st u).effects =
      st.effects ++ (plannedInsertText pn u).toList) ∧
    ((insertionPhase env pn st u).raised = none) ∧
    (∃ tail, (insertionPhase env pn st u).errors = st.errors ++ tail) ∧
    ((insertionPhase env pn st u).success = true → st.success = true) := by
  cases hid2 : u.id with
  | none => rw [hid2] at hid; simp at hid
  | some iv =>
  rcases hrect : u.rect? with _ | r
  · have hstu : insertionPhase env pn st u = st := by
      simp [insertionPhase, hr, hrect]
    rw [hstu]
    exact ⟨by simp [plannedInsertText, hrect], hr, ⟨[], by simp⟩, fun h => h⟩
  rcases hval : u.newValue? with _ | v
  · have hstu : insertionPhase env pn st u = st := by
      simp [insertionPhase, hr, hrect, hval]
    rw [hstu]
    exact ⟨by simp [plannedInsertText, hrect, hval], hr, ⟨[], by simp⟩, fun h => h⟩
  rcases hfs : u.fontSize? with _ | fs
  · have hstu : insertionPhase env pn st u = st := by
      simp [insertionPhase, hr, hrect, hval, hfs]
    rw [hstu]
    exact ⟨by simp [plannedInsertText, hrect, hval, hfs], hr, ⟨[], by simp⟩, fun h => h⟩
  rcases hcol : u.colorRGB? with _ | col
  · have hstu : insertionPhase env pn st u = st := by
      simp [insertionPhase, hr, hrect, hval, hfs, hcol]
    rw [hstu]
    exact ⟨by simp [plannedInsertText, hrect, hval, hfs, hcol], hr, ⟨[], by simp⟩, fun h => h⟩
  rcases hfmt : format_new_price v u.has_hr_suffix with _ | txt
  · have hstu : insertionPhase env pn st u =
        { st with errors := st.errors ++ ["Invalid parameters for text insertion on price #" ++ iv.render], success := false } := by
      simp [insertionPhase, hr, hrect, hval, hfs, hcol, hfmt, hid2]
    rw [hstu]
    refine ⟨by simp [plannedInsertText, hrect, hval, hfs, hcol, hfmt], hr, ⟨_, rfl⟩, ?_⟩
    intro h
    simp at h
  · by_cases hrc : 0 < env.insertRc pn (insertPoint r fs) txt fs col
    · have hstu : insertionPhase env pn st u =
          { st with effects := st.effects ++ [PdfEffect.insertText pn (insertPoint r fs) txt], updated := st.updated ++ [(iv, txt)] } := by
        simp [insertionPhase, hr, hrect, hval, hfs, hcol, hfmt, hid2, hrc]
      rw [hstu]
      exact ⟨by simp [plannedInsertText, hrect, hval, hfs, hcol, hfmt], hr, ⟨[], by simp⟩, fun h => h⟩
    · by_cases hrc0 : env.insertRc pn (insertPoint r fs) txt fs col = 0 ∧ ¬txt = ""
      · have hstu : insertionPhase env pn st u =
            { st with effects := st.effects ++ [PdfEffect.insertText pn (insertPoint r fs) txt], errors := st.errors ++ ["insert_text inserted 0 characters for price #" ++ iv.render], success := false } := by
          simp [insertionPhase, hr, hrect, hval, hfs, hcol, hfmt, hid2, hrc, hrc0]
        rw [hstu]
        refine ⟨by simp [plannedInsertText, hrect, hval, hfs, hcol, hfmt], hr, ⟨_, rfl⟩, ?_⟩
        intro h
        simp at h
      · have hstu : insertionPhase env pn st u =
            { st with effects := st.effects ++ [PdfEffect.insertText pn (insertPoint r fs) txt], errors := st.errors ++ ["insert_text returned " ++ Int.repr (env.insertRc pn (insertPoint r fs) txt fs col) ++ " for price #" ++ iv.render], success := false } := by
          simp [insertionPhase, hr, hrect, hval, hfs, hcol, hfmt, hid2, hrc, hrc0]
        rw [hstu]
        refine ⟨by simp [plannedInsertText, hrect, hval, hfs, hcol, hfmt], hr, ⟨_, rfl⟩, ?_⟩
        intro h
        simp at h

/-- The insertion loop of a page: with no pending exception and ids
present, it appends exactly the planned insertion effects, possibly
appends errors, never raises, and never turns failure into success. -/
theorem insertion_fold (env : UpdateEnv) (pn : ℕ) :
    ∀ (us : List UpdateDict) (st : RunState), st.raised = none →
      (∀ u ∈ us, u.id.isSome = true) →
      ((us.foldl (insertionPhase env pn) st).effects =
        st.effects ++ us.filterMap (plannedInsertText pn)) ∧
      ((us.foldl (insertionPhase env pn) st).raised = none) ∧
      (∃ tail, (us.foldl (insertionPhase env pn) st).errors = st.errors ++ tail) ∧
      ((us.foldl (insertionPhase env pn) st).success = true → st.success = true) := by
  intro us
  induction us with
  | nil =>
    intro st hr hid
    exact ⟨by simp, hr, ⟨[], by simp⟩, fun h => h⟩
  | cons u us ih =>
    intro st hr hid
    obtain ⟨heff, hraised, ⟨tl, htl⟩, hsucc⟩ :=
      insertionPhase_char env pn st u hr (hid u (by simp))
    obtain ⟨ieff, iraised, ⟨tl2, itl⟩, isucc⟩ :=
      ih (insertionPhase env pn st u) hraised (fun v hv => hid v (by simp [hv]))
    rw [List.foldl_cons]
    refine ⟨?_, iraised, ⟨tl ++ tl2, ?_⟩, ?_⟩
    · rw [ieff, heff]
      cases hpl : plannedInsertText pn u <;> simp [hpl, List.filterMap_cons]
    · rw [itl, htl, List.append_assoc]
    · intro h
      exact hsucc (isucc h)

/-- Claim C2 (amended: every request carries the optional id; without one
the source raises an uncaught KeyError, see the counterexample): on an
in-range page, the out-of-bounds requests are recorded as per-item errors
and excluded from redaction and insertion, the in-bounds requests all
still contribute their redaction and insertion calls, and any bounds
violation forces `success = false`; an out-of-range page index produces a
page-level error with `success = false` and no effects, and the page loop
always continues with the remaining pages. -/
theorem C2_page_bounds_partial_failure :
    (∀ (env : UpdateEnv) (st : RunState) (n : ℤ) (us : List UpdateDict),
      st.raised = none → (∀ u ∈ us, u.id.isSome = true) →
      0 ≤ n → n.toNat < env.pages.length →
      (let pn := n.toNat
       let pg := env.pages.getD pn { width := 0, height := 0 }
       let valid := us.filter (fun u => (boundsCheck pn pg.width pg.height u).isNone)
       ((processPage env st (.scalar (.intv n)) us).effects =
         st.effects ++ valid.filterMap (plannedRedact pn) ++
           [PdfEffect.applyRedactions pn, PdfEffect.cleanContents pn] ++
           valid.filterMap (plannedInsertText pn)) ∧
       (∃ tail, (processPage env st (.scalar (.intv n)) us).errors =
         st.errors ++ us.filterMap (boundsCheck pn pg.width pg.height) ++ tail) ∧
       (us.filterMap (boundsCheck pn pg.width pg.height) ≠ [] →
         (processPage env st (.scalar (.intv n)) us).success = false))) ∧
    (∀ (env : UpdateEnv) (st : RunState) (n : ℤ) (us : List UpdateDict),
      st.raised = none → (n < 0 ∨ (env.pages.length : ℤ) ≤ n) →
      processPage env st (.scalar (.intv n)) us =
        { st with errors := st.errors ++ ["page_num " ++ Int.repr n ++ " is out of range (PDF has " ++ Nat.repr env.pages.length ++ " pages)"], success := false }) ∧
    (∀ (env : UpdateEnv) (st : RunState) (g : PyVal × List UpdateDict)
        (gs : List (PyVal × List UpdateDict)),
      (g :: gs).foldl (fun s p => processPage env s p.1 p.2) st =
        gs.foldl (fun s p => processPage env s p.1 p.2) (processPage env st g.1 g.2)) := by
  refine ⟨?_, ?_, ?_⟩
  · intro env st n us hr hid hn hlt
    have hcond : (decide (n < 0) || decide ((env.pages.length : ℤ) ≤ n)) = false := by
      rw [decide_eq_false (by omega : ¬(n < 0)),
        decide_eq_false (by omega : ¬((env.pages.length : ℤ) ≤ n))]
      rfl
    have hproc : processPage env st (.scalar (.intv n)) us =
        (let pn := n.toNat
         let pg := env.pages.getD pn { width := 0, height := 0 }
         let berrs := us.filterMap (boundsCheck pn pg.width pg.height)
         let valid := us.filter (fun u => (boundsCheck pn pg.width pg.height u).isNone)
         let st1 : RunState := { st with errors := st.errors ++ berrs, success := st.success && berrs.isEmpty }
         let st2 := valid.foldl (redactionPhase pn) st1
         if st2.raised.isSome then st2
         else
           let st3 := { st2 with effects := st2.effects ++ [PdfEffect.applyRedactions pn, PdfEffect.cleanContents pn] }
           valid.foldl (insertionPhase env pn) st3) := by
      simp only [processPage, hr, Option.isSome_none, Bool.false_eq_true, if_false, hcond]
    dsimp only at hproc
    dsimp only
    set pn := n.toNat with hpn
    set pg := env.pages.getD pn { width := 0, height := 0 } with hpg
    set berrs := us.filterMap (boundsCheck pn pg.width pg.height) with hberrs
    set valid := us.filter (fun u => (boundsCheck pn pg.width pg.height u).isNone) with hvalid
    set st1 : RunState := { st with errors := st.errors ++ berrs, success := st.success && berrs.isEmpty } with hst1
    have hidv : ∀ u ∈ valid, u.id.isSome = true := by
      intro u hu
      exact hid u (List.mem_of_mem_filter hu)
    have hr1 : st1.raised = none := by
      rw [hst1]
      exact hr
    have hst2 : valid.foldl (redactionPhase pn) st1 =
        { st1 with effects := st1.effects ++ valid.filterMap (plannedRedact pn) } :=
      redaction_fold pn valid st1 hr1 hidv
    rw [hst2] at hproc
    have hraised2 : ({ st1 with effects := st1.effects ++ valid.filterMap (plannedRedact pn) } : RunState).raised = none := hr1
    rw [hraised2] at hproc
    simp only [Option.isSome_none, Bool.false_eq_true, if_false] at hproc
    obtain ⟨ieff, iraised, ⟨tl, itl⟩, isucc⟩ :=
      insertion_fold env pn valid
        { success := st.success && berrs.isEmpty, updated := st.updated, errors := st.errors ++ berrs, effects := st.effects ++ List.filterMap (plannedRedact pn) valid ++ [PdfEffect.applyRedactions pn, PdfEffect.cleanContents pn], raised := none }
        rfl hidv
    rw [hproc]
    refine ⟨?_, ⟨tl, ?_⟩, ?_⟩
    · rw [ieff]
    · rw [itl]
    · intro hne
      have hbe : berrs.isEmpty = false := by
        cases hb : berrs with
        | nil => exact absurd hb hne
        | cons a l => rfl
      cases hsv : (List.foldl (insertionPhase env pn)
          { success := st.success && berrs.isEmpty, updated := st.updated, errors := st.errors ++ berrs, effects := st.effects ++ List.filterMap (plannedRedact pn) valid ++ [PdfEffect.applyRedactions pn, PdfEffect.cleanContents pn], raised := none }
          valid).success with
      | false => rfl
      | true =>
        have hS := isucc hsv
        dsimp only at hS
        rw [Bool.and_eq_true] at hS
        rw [hbe] at hS
        exact absurd hS.2 Bool.false_ne_true
  · intro env st n us hr hrange
    have hcond : (decide (n < 0) || decide ((env.pages.length : ℤ) ≤ n)) = true := by
      rcases hrange with h | h
      · rw [decide_eq_true h]
        rfl
      · rw [decide_eq_true h]
        simp
    simp only [processPage, hr, Option.isSome_none, Bool.false_eq_true, if_false, hcond,
      if_true]
  · intro env st g gs
    rfl

/-- Claim C2 counterexample: a batch whose out-of-bounds request is
correctly flagged but whose remaining valid request lacks the optional id
does not produce the claimed `success = false` result at all — the
`update['id']` lookup in the redaction logging raises an uncaught
KeyError, so `update_prices` raises instead of returning. -/
theorem C2_missing_id_keyerror_counterexample :
    (update_prices sampleEnv "/a.pdf" "/b.pdf"
      [mkUpdate 10 20 1000 40 650 0 8 (some 1), mkUpdate 10 20 30 40 650 0 8 none]).1 =
      Except.error "KeyError: 'id'" := by
  have hne : ¬("/a.pdf" = "/b.pdf") := by decide
  norm_num [update_prices, validate_updates, validate_update, check_required,
    check_bbox, check_coord, check_rect, check_font_size, check_new_value, check_color,
    check_channel, mkUpdate, finv, MIN_BBOX_DIMENSION, PyScalar.isNumber, PyScalar.isNaN,
    PyScalar.isInf, PyScalar.numVal, UpdateDict.idStr, PyVal.render, Option.orElse,
    HOrElse.hOrElse, OrElse.orElse, groupByPage, processPage, boundsCheck,
    UpdateDict.rect?, redactionPhase, insertionPhase, tightRect, sampleEnv,
    List.foldl, List.filter, List.filterMap, List.any]
  rw [if_neg hne]

/-- Witness for C2 (amended) at one in-bounds request with an id on the
single page of the sample environment. -/
theorem C2_page_bounds_partial_failure_witness :
    (let pn := (0 : ℤ).toNat
     let pg := sampleEnv.pages.getD pn { width := 0, height := 0 }
     let valid := [mkUpdate 10 20 30 40 650 0 8 (some 1)].filter
       (fun u => (boundsCheck pn pg.width pg.height u).isNone)
     ((processPage sampleEnv { success := true, updated := [], errors := [], effects := [], raised := none } (.scalar (.intv 0)) [mkUpdate 10 20 30 40 650 0 8 (some 1)]).effects =
       ([] : List PdfEffect) ++ valid.filterMap (plannedRedact pn) ++
         [PdfEffect.applyRedactions pn, PdfEffect.cleanContents pn] ++
         valid.filterMap (plannedInsertText pn)) ∧
     (∃ tail, (processPage sampleEnv { success := true, updated := [], errors := [], effects := [], raised := none } (.scalar (.intv 0)) [mkUpdate 10 20 30 40 650 0 8 (some 1)]).errors =
       ([] : List String) ++ [mkUpdate 10 20 30 40 650 0 8 (some 1)].filterMap (boundsCheck pn pg.width pg.height) ++ tail) ∧
     ([mkUpdate 10 20 30 40 650 0 8 (some 1)].filterMap (boundsCheck pn pg.width pg.height) ≠ [] →
       (processPage sampleEnv { success := true, updated := [], errors := [], effects := [], raised := none } (.scalar (.intv 0)) [mkUpdate 10 20 30 40 650 0 8 (some 1)]).success = false)) :=
  C2_page_bounds_partial_failure.1 sampleEnv
    { success := true, updated := [], errors := [], effects := [], raised := none }
    0 [mkUpdate 10 20 30 40 650 0 8 (some 1)] rfl (by decide) (by decide) (by decide)

/-- Facts about a single decimal digit character, by enumeration. -/
theorem digitChar_facts : ∀ d < 10, (Nat.digitChar d).isDigit = true ∧
    (Nat.digitChar d).toNat - 48 = d ∧ ¬(Nat.digitChar d = ',') ∧
    ¬(Nat.digitChar d = '.') ∧ ¬(Nat.digitChar d = '/') ∧
    ¬(Nat.digitChar d = '$') ∧ ¬(Nat.digitChar d = 'r') ∧
    (0 < d → ¬(Nat.digitChar d = '0')) := by decide

/-- The two padded fraction digits of a cent amount: always two digit
characters whose value reads back, by enumeration of the cents. -/
theorem pad2_facts : ∀ k < 100, (pad2 k).all Char.isDigit = true ∧
    digitsVal (pad2 k) = k ∧ (pad2 k).length = 2 := by decide

/-- The degenerate-zero lookahead fails on every `0.xx` rendering of a
nonzero cent remainder, with or without the hourly suffix. -/
theorem zeroLookahead_dot_pad2 : ∀ k < 100, k ≠ 0 →
    zeroLookahead ('0' :: '.' :: pad2 k) = false ∧
    zeroLookahead ('0' :: '.' :: (pad2 k ++ ['/', 'h', 'r'])) = false := by decide

/-- `natDigitsRev` is never empty. -/
theorem natDigitsRev_ne_nil (n : ℕ) : natDigitsRev n ≠ [] := by
  rw [natDigitsRev]
  split <;> simp

/-- Every character of `natDigitsRev` is a decimal digit. -/
theorem natDigitsRev_all_digit (n : ℕ) : ∀ c ∈ natDigitsRev n, c.isDigit = true := by
  induction n using Nat.strong_induction_on with
  | _ n ih =>
    rw [natDigitsRev]
    split
    · intro c hc
      simp only [List.mem_singleton] at hc
      subst hc
      exact (digitChar_facts n (by omega)).1
    · intro c hc
      rcases List.mem_cons.mp hc with rfl | hc
      · exact (digitChar_facts (n % 10) (by omega)).1
      · exact ih (n / 10) (Nat.div_lt_self (by omega) (by omega)) c hc

/-- Reading the digits of `n` back most-significant first gives `n`. -/
theorem digitsVal_natDigitsRev (n : ℕ) : digitsVal (natDigitsRev n).reverse = n := by
  have key : ∀ m : ℕ, ∀ a : ℕ, (natDigitsRev m).foldr (fun c a => 10 * a + (c.toNat - 48)) a =
      10 ^ (natDigitsRev m).length * a + m := by
    intro m
    induction m using Nat.strong_induction_on with
    | _ m ih =>
      intro a
      rw [natDigitsRev]
      split
      · rename_i hm
        simp only [List.foldr_cons, List.foldr_nil, List.length_singleton]
        rw [(digitChar_facts m (by omega)).2.1]
        ring
      · rename_i hm
        simp only [List.foldr_cons, List.length_cons]
        rw [ih (m / 10) (Nat.div_lt_self (by omega) (by omega)) a]
        rw [(digitChar_facts (m % 10) (by omega)).2.1]
        have h1 : 10 ^ ((natDigitsRev (m / 10)).length + 1) * a =
            10 * (10 ^ (natDigitsRev (m / 10)).length * a) := by ring
        rw [h1]
        omega
  unfold digitsVal
  rw [List.foldl_reverse]
  have := key n 0
  simpa using this

/-- The most significant digit of a positive number is not the zero
character. -/
theorem natDigitsRev_msd (n : ℕ) :
    ∃ c t, (natDigitsRev n).reverse = c :: t ∧ c.isDigit = true ∧
      (0 < n → ¬(c = '0')) := by
  induction n using Nat.strong_induction_on with
  | _ n ih =>
    rw [natDigitsRev]
    split
    · rename_i hn
      exact ⟨Nat.digitChar n, [], by simp, (digitChar_facts n (by omega)).1,
        fun hp => (digitChar_facts n (by omega)).2.2.2.2.2.2.2 hp⟩
    · rename_i hn
      obtain ⟨c, t, hct, hd, hz⟩ := ih (n / 10) (Nat.div_lt_self (by omega) (by omega))
      refine ⟨c, t ++ [Nat.digitChar (n % 10)], ?_, hd, fun _ => hz (by omega)⟩
      rw [List.reverse_cons, hct]
      simp

/-- `takeWhile` passes over a fully satisfying prefix. -/
theorem takeWhile_append_all {p : Char → Bool} {l1 l2 : List Char}
    (h : ∀ c ∈ l1, p c = true) :
    (l1 ++ l2).takeWhile p = l1 ++ l2.takeWhile p := by
  induction l1 with
  | nil => simp
  | cons c t ih =>
    rw [List.cons_append, List.takeWhile_cons, h c (by simp), ih (fun x hx => h x (by simp [hx]))]
    rfl

/-- `dropWhile` skips a fully satisfying prefix. -/
theorem dropWhile_append_all {p : Char → Bool} {l1 l2 : List Char}
    (h : ∀ c ∈ l1, p c = true) :
    (l1 ++ l2).dropWhile p = l2.dropWhile p := by
  induction l1 with
  | nil => simp
  | cons c t ih =>
    rw [List.cons_append, List.dropWhile_cons, h c (by simp)]
    exact ih (fun x hx => h x (by simp [hx]))

/-- `removeHr` is the identity on slash-free text. -/
theorem removeHr_no_slash : ∀ {l : List Char}, (∀ c ∈ l, ¬(c = '/')) → removeHr l = l := by
  intro l
  induction l using removeHr.induct with
  | case1 => simp [removeHr]
  | case2 c => simp [removeHr]
  | case3 c c2 => simp [removeHr]
  | case4 c c2 c3 rest2 hcond ih =>
    intro h
    exfalso
    simp only [Bool.and_eq_true, beq_iff_eq] at hcond
    exact h c (by simp) hcond.1.1
  | case5 c c2 c3 rest2 hcond ih =>
    intro h
    rw [removeHr, if_neg hcond, ih (fun x hx => h x (by simp at hx ⊢; tauto))]

/-- `removeHr` strips a trailing `/hr` from slash-free text. -/
theorem removeHr_append_hr : ∀ {l : List Char}, (∀ c ∈ l, ¬(c = '/')) →
    removeHr (l ++ ['/', 'h', 'r']) = l := by
  intro l
  induction l with
  | nil => intro _; rfl
  | cons c t ih =>
    intro h
    have hc : ¬(c = '/') := h c (by simp)
    cases t with
    | nil =>
      show removeHr [c, '/', 'h', 'r'] = [c]
      rw [removeHr, if_neg (by simp [hc])]
      rfl
    | cons c2 t2 =>
      cases t2 with
      | nil =>
        show removeHr [c, c2, '/', 'h', 'r'] = [c, c2]
        have hc2 : ¬(c2 = '/') := h c2 (by simp)
        rw [removeHr, if_neg (by simp [hc])]
        rw [removeHr, if_neg (by simp [hc2])]
        rfl
      | cons c3 t3 =>
        have : ((c :: c2 :: c3 :: t3) ++ ['/', 'h', 'r']) =
            c :: c2 :: c3 :: (t3 ++ ['/', 'h', 'r']) := by simp
        rw [this, removeHr, if_neg (by simp [hc])]
        have := ih (fun x hx => h x (by simp at hx ⊢; tauto))
        simp only [List.cons_append] at this
        rw [this]

/-- A digit character is none of the special characters of the price
grammar. -/
theorem isDigit_ne_special {c : Char} (h : c.isDigit = true) :
    ¬(c = '/') ∧ ¬(c = '$') ∧ ¬(c = '.') ∧ ¬(c = ',') ∧ ¬(c = 'r') ∧ ¬(c = '-') := by
  refine ⟨?_, ?_, ?_, ?_, ?_, ?_⟩ <;> intro hh <;> rw [hh] at h <;> exact absurd h (by decide)

/-- Lists of fewer than four characters are not regrouped. -/
theorem groupDigitsRev_short {l : List Char}
    (hne : ∀ (a b c d : Char) (rest : List Char), l = a :: b :: c :: d :: rest → False) :
    groupDigitsRev l = l := by
  match l with
  | [] => rfl
  | [a] => rfl
  | [a, b] => rfl
  | [a, b, c] => rfl
  | a :: b :: c :: d :: rest => exact (hne a b c d rest rfl).elim

/-- Grouping never empties a list. -/
theorem groupDigitsRev_ne_nil {l : List Char} (h : l ≠ []) : groupDigitsRev l ≠ [] := by
  match l with
  | [] => exact absurd rfl h
  | [a] => simp [groupDigitsRev]
  | [a, b] => simp [groupDigitsRev]
  | [a, b, c] => simp [groupDigitsRev]
  | a :: b :: c :: d :: rest => simp [groupDigitsRev]

/-- A character of the grouped list is a character of the input or a
comma. -/
theorem mem_groupDigitsRev {x : Char} : ∀ {l : List Char},
    x ∈ groupDigitsRev l → x ∈ l ∨ x = ',' := by
  intro l
  induction l using groupDigitsRev.induct with
  | case1 a b c d rest ih =>
    intro h
    rw [groupDigitsRev] at h
    simp only [List.mem_cons] at h
    rcases h with rfl | rfl | rfl | h | h
    · exact Or.inl (by simp)
    · exact Or.inl (by simp)
    · exact Or.inl (by simp)
    · exact Or.inr h
    · rcases ih h with h2 | h2
      · exact Or.inl (by simp only [List.mem_cons] at h2 ⊢; tauto)
      · exact Or.inr h2
  | case2 l hne =>
    intro h
    rw [groupDigitsRev_short hne] at h
    exact Or.inl h

/-- Removing commas undoes the grouping on comma-free input. -/
theorem filter_groupDigitsRev : ∀ {l : List Char}, (∀ c ∈ l, ¬(c = ',')) →
    (groupDigitsRev l).filter (fun c => !(c == ',')) = l := by
  intro l
  induction l using groupDigitsRev.induct with
  | case1 a b c d rest ih =>
    intro h
    rw [groupDigitsRev]
    simp only [List.filter_cons]
    rw [ih (fun x hx => h x (by simp only [List.mem_cons] at hx ⊢; tauto))]
    simp [h a (by simp), h b (by simp), h c (by simp)]
  | case2 l hne =>
    intro h
    rw [groupDigitsRev_short hne]
    exact List.filter_eq_self.mpr (fun c hc => by simpa using h c hc)

/-- Grouping preserves the first character of the reversed list (the most
significant digit of the rendered number). -/
theorem reverse_head_groupDigitsRev : ∀ (l : List Char),
    (groupDigitsRev l).reverse.head? = l.reverse.head? := by
  intro l
  induction l using groupDigitsRev.induct with
  | case1 a b c d rest ih =>
    rw [groupDigitsRev]
    have hner : (groupDigitsRev (d :: rest)).reverse ≠ [] := by
      simpa using groupDigitsRev_ne_nil (l := d :: rest) (by simp)
    have hner2 : (d :: rest).reverse ≠ [] := by simp
    simp only [List.reverse_cons, List.append_assoc]
    rw [List.head?_append_of_ne_nil _ hner]
    rw [← List.append_assoc rest.reverse [d] ([c] ++ ([b] ++ [a]))]
    rw [show rest.reverse ++ [d] = (d :: rest).reverse from by simp]
    rw [List.head?_append_of_ne_nil _ hner2]
    have := ih
    simp only [List.reverse_cons] at this ⊢
    exact this
  | case2 l hne =>
    rw [groupDigitsRev_short hne]

/-- The rendered group string is nonempty. -/
theorem groupThousands_ne_nil (m : ℕ) : groupThousands m ≠ [] := by
  unfold groupThousands
  simpa using groupDigitsRev_ne_nil (natDigitsRev_ne_nil m)

/-- The rendered group string starts with a digit, nonzero when the number
is positive. -/
theorem groupThousands_head (m : ℕ) : ∃ c t, groupThousands m = c :: t ∧
    c.isDigit = true ∧ (0 < m → ¬(c = '0')) := by
  obtain ⟨c, t, hct, hd, hz⟩ := natDigitsRev_msd m
  have hh : (groupThousands m).head? = some c := by
    unfold groupThousands
    rw [reverse_head_groupDigitsRev, hct]
    rfl
  cases hg : groupThousands m with
  | nil => rw [hg] at hh; simp at hh
  | cons c2 t2 =>
    rw [hg] at hh
    simp only [List.head?_cons, Option.some.injEq] at hh
    exact ⟨c2, t2, rfl, hh ▸ hd, hh ▸ hz⟩

/-- Every character of the rendered group string is a digit or a comma. -/
theorem groupThousands_chars (m : ℕ) :
    ∀ c ∈ groupThousands m, c.isDigit = true ∨ c = ',' := by
  intro c hc
  unfold groupThousands at hc
  rw [List.mem_reverse] at hc
  rcases mem_groupDigitsRev hc with h | h
  · exact Or.inl (natDigitsRev_all_digit m c h)
  · exact Or.inr h

/-- Removing commas from the rendered group string leaves the plain
big-endian digits. -/
theorem filter_comma_groupThousands (m : ℕ) :
    (groupThousands m).filter (fun c => !(c == ',')) = (natDigitsRev m).reverse := by
  unfold groupThousands
  rw [List.filter_reverse]
  rw [filter_groupDigitsRev (fun c hc => ((isDigit_ne_special (natDigitsRev_all_digit m c hc)).2.2.2.1))]

/-- The zero lookahead fails whenever the text does not start with the
zero character. -/
theorem zeroLookahead_head_ne {l : List Char} (h : l.head? ≠ some '0') :
    zeroLookahead l = false := by
  cases l with
  | nil => rfl
  | cons c t =>
    have hc : ¬(c = '0') := fun hh => h (by rw [hh]; rfl)
    simp [zeroLookahead, hc]

/-- A nonempty all-digit-or-comma text matches the numeric body. -/
theorem numBodyMatch_plain {l : List Char} (hne : l ≠ [])
    (hall : ∀ c ∈ l, isDigitComma c = true) : numBodyMatch l = true := by
  unfold numBodyMatch
  have h1 : l.isEmpty = false := by
    cases l with
    | nil => exact absurd rfl hne
    | cons a t => rfl
  have h2 : l.all isDigitComma = true := List.all_eq_true.mpr hall
  simp [h1, h2]

/-- An all-digit-or-comma text followed by a dot and two digits matches
the numeric body. -/
theorem numBodyMatch_dot {x : List Char} (hne : x ≠ [])
    (hall : ∀ c ∈ x, isDigitComma c = true) {d1 d2 : Char}
    (h1 : d1.isDigit = true) (h2 : d2.isDigit = true) :
    numBodyMatch (x ++ ['.', d1, d2]) = true := by
  unfold numBodyMatch
  have hlen : (x ++ ['.', d1, d2]).length - 3 = x.length := by
    simp
  rw [hlen, List.take_left, List.drop_left]
  have hx : x.isEmpty = false := by
    cases x with
    | nil => exact absurd rfl hne
    | cons a t => rfl
  have hx2 : x.all isDigitComma = true := List.all_eq_true.mpr hall
  have hdot : dotTail ['.', d1, d2] = true := by
    simp [dotTail, h1, h2]
  simp [hx, hx2, hdot]

/-- A matched numeric body with an optional `/hr` suffix passes the price
body matcher. -/
theorem priceBody_of_numBody (x : List Char) (h : Bool)
    (hnum : numBodyMatch x = true) :
    priceBody (x ++ (cond h ['/', 'h', 'r'] [])) = true := by
  cases h with
  | false =>
    simp only [cond_false, List.append_nil]
    unfold priceBody
    rw [hnum]
    rfl
  | true =>
    simp only [cond_true]
    unfold priceBody
    rw [show (x ++ ['/', 'h', 'r']).reverse = 'r' :: 'h' :: '/' :: x.reverse from by simp]
    dsimp only
    rw [List.reverse_reverse, hnum]
    simp

/-- A matched numeric body starting with a digit, with the zero lookahead
failing on its suffixed form, gives a full pattern match once the dollar
sign is prefixed. -/
theorem priceFullMatch_of_parts (x : List Char) (h : Bool)
    (hnum : numBodyMatch x = true)
    (hzl : zeroLookahead (x ++ (cond h ['/', 'h', 'r'] [])) = false)
    (hhead : ∃ c t, x = c :: t ∧ c.isDigit = true) :
    priceFullMatch (String.mk ('$' :: (x ++ (cond h ['/', 'h', 'r'] [])))) = true := by
  obtain ⟨c, t, hct, hd⟩ := hhead
  have hx : x ++ (cond h ['/', 'h', 'r'] []) = c :: (t ++ (cond h ['/', 'h', 'r'] [])) := by
    rw [hct]
    rfl
  have hdash : (match x ++ (cond h ['/', 'h', 'r'] []) with
      | c2 :: _ => !(c2 == '-')
      | [] => true) = true := by
    rw [hx]
    simp [(isDigit_ne_special hd).2.2.2.2.2]
  have hbody := priceBody_of_numBody x h hnum
  unfold priceFullMatch
  rw [show (String.mk ('$' :: (x ++ (cond h ['/', 'h', 'r'] [])))).toList =
    '$' :: (x ++ (cond h ['/', 'h', 'r'] [])) from rfl]
  dsimp only
  simp [hdash, hzl, hbody]

/-- Text whose last character is not `r` does not end in `/hr`. -/
theorem endsHr_false_of_last {l : List Char} (h : l.reverse.head? ≠ some 'r') :
    endsHr l = false := by
  rcases hrev : l.reverse with _ | ⟨a, _ | ⟨b, _ | ⟨c, t3⟩⟩⟩
  · unfold endsHr
    rw [hrev]
  · unfold endsHr
    rw [hrev]
  · unfold endsHr
    rw [hrev]
  · unfold endsHr
    rw [hrev]
    have ha : ¬(a = 'r') := by
      intro hh
      exact h (by rw [hrev, hh]; rfl)
    simp [ha]

/-- Appending `/hr` makes the suffix test succeed. -/
theorem endsHr_append_hr (l : List Char) : endsHr (l ++ ['/', 'h', 'r']) = true := by
  unfold endsHr
  rw [show (l ++ ['/', 'h', 'r']).reverse = 'r' :: 'h' :: '/' :: l.reverse from by simp]
  rfl

/-- Evaluation of `parse_price_value` on a rendered price: the dollar sign
is stripped, the optional suffix is removed, commas are dropped, and the
float value is returned with the suffix flag. -/
theorem parse_eval (x : List Char) (h : Bool) (w : ℚ)
    (hnoDollar : ∀ c ∈ x, ¬(c = '$'))
    (hnoSlash : ∀ c ∈ x, ¬(c = '/'))
    (hlastr : x.reverse.head? ≠ some 'r')
    (hfloat : pyFloat (x.filter (fun c => !(c == ','))) = some w)
    (h0 : ¬(w < 0)) (hmax : ¬(MAX_PRICE_VALUE < w)) :
    parse_price_value (String.mk ('$' :: (x ++ (cond h ['/', 'h', 'r'] [])))) =
      some (w, h) := by
  have hsuffilter : (cond h ['/', 'h', 'r'] ([] : List Char)).filter (fun c => !(c == '$')) =
      cond h ['/', 'h', 'r'] [] := by
    cases h <;> rfl
  have hclean1 : ('$' :: (x ++ cond h ['/', 'h', 'r'] [])).filter (fun c => !(c == '$')) =
      x ++ cond h ['/', 'h', 'r'] [] := by
    rw [List.filter_cons]
    simp only [beq_self_eq_true, Bool.not_true, Bool.false_eq_true, if_false]
    rw [List.filter_append, List.filter_eq_self.mpr (fun c hc => by simp [hnoDollar c hc]),
      hsuffilter]
  have hrem : removeHr (x ++ cond h ['/', 'h', 'r'] []) = x := by
    cases h
    · simpa using removeHr_no_slash hnoSlash
    · exact removeHr_append_hr hnoSlash
  have hends : endsHr ('$' :: (x ++ cond h ['/', 'h', 'r'] [])) = h := by
    cases h
    · simp only [cond_false, List.append_nil]
      apply endsHr_false_of_last
      rw [List.reverse_cons]
      cases hx : x.reverse with
      | nil => simp
      | cons a t =>
        rw [List.head?_append_of_ne_nil _ (by simp)]
        rw [hx] at hlastr
        exact hlastr
    · simp only [cond_true]
      rw [show ('$' :: (x ++ ['/', 'h', 'r'])) = ('$' :: x) ++ ['/', 'h', 'r'] from by simp]
      exact endsHr_append_hr _
  unfold parse_price_value
  rw [show (String.mk ('$' :: (x ++ (cond h ['/', 'h', 'r'] [])))).toList =
    '$' :: (x ++ (cond h ['/', 'h', 'r'] [])) from rfl]
  dsimp only
  rw [hclean1, hrem, hfloat]
  dsimp only
  rw [if_neg h0, if_neg hmax, hends]

/-- `takeWhile` keeps a fully satisfying list. -/
theorem takeWhile_all {p : Char → Bool} : ∀ {l : List Char},
    (∀ c ∈ l, p c = true) → l.takeWhile p = l := by
  intro l
  induction l with
  | nil => intro _; rfl
  | cons c t ih =>
    intro h
    rw [List.takeWhile_cons, h c (by simp)]
    simp [ih (fun x hx => h x (by simp [hx]))]

/-- `dropWhile` drops a fully satisfying list. -/
theorem dropWhile_all {p : Char → Bool} : ∀ {l : List Char},
    (∀ c ∈ l, p c = true) → l.dropWhile p = [] := by
  intro l
  induction l with
  | nil => intro _; rfl
  | cons c t ih =>
    intro h
    rw [List.dropWhile_cons, h c (by simp)]
    simp [ih (fun x hx => h x (by simp [hx]))]

/-- `pyFloat` reads the plain digit rendering of `m` back as `m`. -/
theorem pyFloat_digits (m : ℕ) : pyFloat (natDigitsRev m).reverse = some (m : ℚ) := by
  have hall : ∀ c ∈ (natDigitsRev m).reverse, Char.isDigit c = true :=
    fun c hc => natDigitsRev_all_digit m c (List.mem_reverse.mp hc)
  cases hl : (natDigitsRev m).reverse with
  | nil => exact absurd hl (by simpa using natDigitsRev_ne_nil m)
  | cons c t =>
    have hcd : c.isDigit = true := hall c (by rw [hl]; simp)
    have hcne : (c == '-') = false :=
      beq_eq_false_iff_ne.mpr (isDigit_ne_special hcd).2.2.2.2.2
    simp only [pyFloat, hcne, Bool.false_eq_true, if_false]
    rw [show (c :: t).takeWhile Char.isDigit = c :: t from takeWhile_all (hl ▸ hall),
      show (c :: t).dropWhile Char.isDigit = [] from dropWhile_all (hl ▸ hall)]
    dsimp only
    rw [if_neg (by simp)]
    rw [← hl, digitsVal_natDigitsRev]

/-- `pyFloat` reads the digit rendering of `m` with two fraction digits of
`k` back as `m + k / 100`. -/
theorem pyFloat_digits_frac (m k : ℕ) (hk : k < 100) :
    pyFloat ((natDigitsRev m).reverse ++ '.' :: pad2 k) =
      some ((m : ℚ) + (k : ℚ) / 100) := by
  have hall : ∀ c ∈ (natDigitsRev m).reverse, Char.isDigit c = true :=
    fun c hc => natDigitsRev_all_digit m c (List.mem_reverse.mp hc)
  have hne : (natDigitsRev m).reverse ≠ [] := by
    simpa using natDigitsRev_ne_nil m
  cases hl : (natDigitsRev m).reverse with
  | nil => exact absurd hl hne
  | cons c t =>
    have hcd : c.isDigit = true := hall c (by rw [hl]; simp)
    have hcne : (c == '-') = false :=
      beq_eq_false_iff_ne.mpr (isDigit_ne_special hcd).2.2.2.2.2
    simp only [pyFloat, List.cons_append, hcne, Bool.false_eq_true, if_false]
    have hta : ∀ x ∈ t, Char.isDigit x = true := fun x hx => (hl ▸ hall) x (by simp [hx])
    have htake : List.takeWhile Char.isDigit (c :: (t ++ '.' :: pad2 k)) = c :: t := by
      rw [List.takeWhile_cons, hcd, if_pos rfl]
      rw [takeWhile_append_all hta]
      rw [show ('.' :: pad2 k).takeWhile Char.isDigit = [] from by rw [List.takeWhile_cons]; rfl]
      rw [List.append_nil]
    have hdrop : List.dropWhile Char.isDigit (c :: (t ++ '.' :: pad2 k)) = '.' :: pad2 k := by
      rw [List.dropWhile_cons, hcd, if_pos rfl]
      rw [dropWhile_append_all hta]
      rw [List.dropWhile_cons]
      rfl
    rw [htake, hdrop]
    dsimp only
    rw [if_pos (by simp [(pad2_facts k hk).1])]
    rw [show digitsVal (c :: t) = m from by rw [← hl]; exact digitsVal_natDigitsRev m]
    rw [(pad2_facts k hk).2.1, (pad2_facts k hk).2.2]
    norm_num

/-- The rendered group string contains neither a dollar sign nor a slash,
and never ends in `r`. -/
theorem groupThousands_no_special (m : ℕ) :
    (∀ c ∈ groupThousands m, ¬(c = '$')) ∧ (∀ c ∈ groupThousands m, ¬(c = '/')) ∧
    (∀ c ∈ groupThousands m, ¬(c = 'r')) ∧ (∀ c ∈ groupThousands m, isDigitComma c = true) := by
  refine ⟨?_, ?_, ?_, ?_⟩ <;> intro c hc <;> rcases groupThousands_chars m c hc with hd | hcom
  · exact (isDigit_ne_special hd).2.1
  · intro hh; rw [hcom] at hh; exact absurd hh (by decide)
  · exact (isDigit_ne_special hd).1
  · intro hh; rw [hcom] at hh; exact absurd hh (by decide)
  · exact (isDigit_ne_special hd).2.2.2.2.1
  · intro hh; rw [hcom] at hh; exact absurd hh (by decide)
  · simp [isDigitComma, hd]
  · simp [isDigitComma, hcom]

/-- Claim C7: for every value with at most two decimal places in
`(0, 10000000]` (written as `n / 100` cents) and every hourly flag, the
formatted price parses back to exactly the same value and flag, and fully
matches the price identification pattern. -/
theorem C7_format_parse_roundtrip (n : ℕ) (hpos : 0 < n) (hle : n ≤ 1000000000) (h : Bool) :
    ∃ txt, format_new_price ((n : ℚ) / 100) h = some txt ∧
      priceFullMatch txt = true ∧
      parse_price_value txt = some ((n : ℚ) / 100, h) := by
  have hv0 : (0 : ℚ) ≤ (n : ℚ) / 100 := by positivity
  have hvpos : (0 : ℚ) < (n : ℚ) / 100 := by
    have : (0 : ℚ) < (n : ℚ) := by exact_mod_cast hpos
    positivity
  have hvle : (n : ℚ) / 100 ≤ MAX_PRICE_VALUE := by
    rw [MAX_PRICE_VALUE, div_le_iff₀ (by norm_num : (0 : ℚ) < 100)]
    have : (n : ℚ) ≤ 1000000000 := by exact_mod_cast hle
    linarith
  have hfmt : format_new_price ((n : ℚ) / 100) h = some (String.mk (format_chars ((n : ℚ) / 100) h)) := by
    unfold format_new_price
    rw [if_neg (not_lt.mpr hv0)]
  refine ⟨String.mk (format_chars ((n : ℚ) / 100) h), hfmt, ?_⟩
  by_cases hden : ((n : ℚ) / 100).den = 1
  · -- integral value: no decimals are printed
    have hnum0 : 0 ≤ ((n : ℚ) / 100).num := Rat.num_nonneg.mpr hv0
    have hmv : ((((n : ℚ) / 100).num.toNat : ℕ) : ℚ) = (n : ℚ) / 100 := by
      rw [show ((((n : ℚ) / 100).num.toNat : ℕ) : ℚ) = ((((n : ℚ) / 100).num.toNat : ℤ) : ℚ) from by push_cast; ring]
      rw [Int.toNat_of_nonneg hnum0]
      exact (Rat.den_eq_one_iff _).mp hden
    set m := ((n : ℚ) / 100).num.toNat with hm
    have hmpos : 0 < m := by
      by_contra hc
      have hm0 : m = 0 := by omega
      rw [hm0] at hmv
      simp at hmv
      rw [← hmv] at hvpos
      exact lt_irrefl _ hvpos
    have hfc : format_chars ((n : ℚ) / 100) h =
        '$' :: (groupThousands m ++ (cond h ['/', 'h', 'r'] [])) := by
      unfold format_chars
      rw [if_pos hden]
      cases h <;> simp
    rw [hfc]
    obtain ⟨c, t, hct, hcd, hc0⟩ := groupThousands_head m
    obtain ⟨hnd, hns, hnr, hdc⟩ := groupThousands_no_special m
    constructor
    · apply priceFullMatch_of_parts
      · exact numBodyMatch_plain (groupThousands_ne_nil m) hdc
      · apply zeroLookahead_head_ne
        rw [show (groupThousands m ++ cond h ['/', 'h', 'r'] []).head? = some c from by rw [hct]; rfl]
        intro hh
        exact hc0 hmpos (Option.some_inj.mp hh)
      · exact ⟨c, t, hct, hcd⟩
    · apply parse_eval
      · exact hnd
      · exact hns
      · cases hx : (groupThousands m).reverse with
        | nil => simp
        | cons a t2 =>
          have ha : a ∈ groupThousands m := by
            rw [← List.mem_reverse, hx]
            simp
          intro hh
          exact hnr a ha (Option.some_inj.mp hh)
      · rw [filter_comma_groupThousands, pyFloat_digits, hmv]
      · exact not_lt.mpr hv0
      · exact not_lt.mpr hvle
  · -- fractional value: exactly two decimals are printed
    have hcent : ((n : ℚ) / 100) * 100 = (n : ℚ) := by field_simp
    have hfloor : ⌊((n : ℚ) / 100) * 100 + 1 / 2⌋ = (n : ℤ) := by
      rw [hcent]
      rw [show ((n : ℚ) + 1 / 2) = ((n : ℤ) : ℚ) + 1 / 2 from by push_cast; ring]
      rw [Int.floor_int_add]
      rw [show ⌊(1 / 2 : ℚ)⌋ = 0 from Int.floor_eq_zero_iff.mpr (by constructor <;> norm_num)]
      ring
    have hk : n % 100 < 100 := Nat.mod_lt _ (by norm_num)
    have hknz : n % 100 ≠ 0 := by
      intro hz
      have hdvd : 100 ∣ n := Nat.dvd_of_mod_eq_zero hz
      obtain ⟨q, hq⟩ := hdvd
      apply hden
      rw [show ((n : ℚ) / 100) = (q : ℕ) from by rw [hq]; push_cast; ring]
      exact Rat.den_natCast q
    have hfc : format_chars ((n : ℚ) / 100) h =
        '$' :: ((groupThousands (n / 100) ++ '.' :: pad2 (n % 100)) ++ (cond h ['/', 'h', 'r'] [])) := by
      unfold format_chars
      rw [if_neg hden, hfloor, Int.toNat_natCast]
      cases h <;> simp
    rw [hfc]
    obtain ⟨hnd, hns, hnr, hdc⟩ := groupThousands_no_special (n / 100)
    have hd1 : (Nat.digitChar (n % 100 / 10)).isDigit = true :=
      (digitChar_facts _ (by omega)).1
    have hd2 : (Nat.digitChar (n % 100 % 10)).isDigit = true :=
      (digitChar_facts _ (by omega)).1
    have hnum : numBodyMatch (groupThousands (n / 100) ++ '.' :: pad2 (n % 100)) = true :=
      numBodyMatch_dot (groupThousands_ne_nil (n / 100)) hdc hd1 hd2
    have hzl : zeroLookahead ((groupThousands (n / 100) ++ '.' :: pad2 (n % 100)) ++
        (cond h ['/', 'h', 'r'] [])) = false := by
      by_cases hq : n / 100 = 0
      · have hG0 : groupThousands (n / 100) = ['0'] := by
          rw [hq, groupThousands, natDigitsRev]
          rfl
        rw [hG0]
        cases h
        · simpa using (zeroLookahead_dot_pad2 (n % 100) hk hknz).1
        · simpa [List.append_assoc] using (zeroLookahead_dot_pad2 (n % 100) hk hknz).2
      · obtain ⟨c, t, hct, hcd, hc0⟩ := groupThousands_head (n / 100)
        apply zeroLookahead_head_ne
        rw [show ((groupThousands (n / 100) ++ '.' :: pad2 (n % 100)) ++
            cond h ['/', 'h', 'r'] []).head? = some c from by rw [hct]; rfl]
        intro hh
        exact hc0 (by omega) (Option.some_inj.mp hh)
    constructor
    · apply priceFullMatch_of_parts _ _ hnum hzl
      obtain ⟨c, t, hct, hcd, _⟩ := groupThousands_head (n / 100)
      exact ⟨c, t ++ '.' :: pad2 (n % 100), by rw [hct]; rfl, hcd⟩
    · apply parse_eval
      · intro c hc
        rcases List.mem_append.mp hc with hc2 | hc2
        · exact hnd c hc2
        · rcases List.mem_cons.mp hc2 with rfl | hc3
          · intro hh; exact absurd hh (by decide)
          · rcases List.mem_cons.mp hc3 with rfl | hc4
            · exact (isDigit_ne_special hd1).2.1
            · rcases List.mem_cons.mp hc4 with rfl | hc5
              · exact (isDigit_ne_special hd2).2.1
              · simp at hc5
      · intro c hc
        rcases List.mem_append.mp hc with hc2 | hc2
        · exact hns c hc2
        · rcases List.mem_cons.mp hc2 with rfl | hc3
          · intro hh; exact absurd hh (by decide)
          · rcases List.mem_cons.mp hc3 with rfl | hc4
            · exact (isDigit_ne_special hd1).1
            · rcases List.mem_cons.mp hc4 with rfl | hc5
              · exact (isDigit_ne_special hd2).1
              · simp at hc5
      · rw [show (groupThousands (n / 100) ++ '.' :: pad2 (n % 100)).reverse =
          Nat.digitChar (n % 100 % 10) :: (Nat.digitChar (n % 100 / 10) :: '.' ::
            (groupThousands (n / 100)).reverse) from by simp [pad2]]
        intro hh
        exact (isDigit_ne_special hd2).2.2.2.2.1 (Option.some_inj.mp hh)
      · rw [List.filter_append, filter_comma_groupThousands]
        rw [show ('.' :: pad2 (n % 100)).filter (fun c => !(c == ',')) = '.' :: pad2 (n % 100) from by
          apply List.filter_eq_self.mpr
          intro c hc
          rcases List.mem_cons.mp hc with rfl | hc2
          · decide
          · rcases List.mem_cons.mp hc2 with rfl | hc3
            · simp [beq_eq_false_iff_ne.mpr (isDigit_ne_special hd1).2.2.2.1]
            · rcases List.mem_cons.mp hc3 with rfl | hc4
              · simp [beq_eq_false_iff_ne.mpr (isDigit_ne_special hd2).2.2.2.1]
              · simp at hc4]
        rw [pyFloat_digits_frac (n / 100) (n % 100) hk]
        congr 1
        have hnm : (n : ℚ) = ((100 * (n / 100) + n % 100 : ℕ) : ℚ) := by
          congr 1
          omega
        rw [hnm]
        push_cast
        field_simp
        ring
      · exact not_lt.mpr hv0
      · exact not_lt.mpr hvle

/-- Witness for C7 at 50 cents with the hourly flag. -/
theorem C7_format_parse_roundtrip_witness :
    ∃ txt, format_new_price (((50 : ℕ) : ℚ) / 100) true = some txt ∧
      priceFullMatch txt = true ∧
      parse_price_value txt = some (((50 : ℕ) : ℚ) / 100, true) :=
  C7_format_parse_roundtrip 50 (by decide) (by decide) true
